import Mathlib

/-!
# Cloudnotte sign-in and registration forms

A shallow embedding of the form logic of `src/components/Login.jsx` and
`src/components/Register.jsx`: the field validator, the password-strength
score and the submit handlers, followed by theorems about them.

JavaScript strings are sequences of UTF-16 code units; `length`, `===` and
regular expressions without the `u` flag all work on code units, so a string
is modelled as the list of its code units.
-/

namespace Cloudnotte

/-! ## Strings -/

/-- A JavaScript string: its UTF-16 code units. -/
abbrev JSStr := List Nat

/-- UTF-16 code units of one Unicode scalar value. -/
def utf16 (c : Char) : List Nat :=
  if c.toNat < 65536 then [c.toNat]
  else [55296 + (c.toNat - 65536) / 1024, 56320 + (c.toNat - 65536) % 1024]

/-- The JavaScript string written by a string literal. -/
def js (s : String) : JSStr := s.data.flatMap utf16

/-- Membership of a code unit in a union of closed ranges. -/
def inRanges (rs : List (Nat × Nat)) (c : Nat) : Bool :=
  rs.any (fun r => decide (r.1 ≤ c) && decide (c ≤ r.2))

/-- The class `\s`: ECMAScript WhiteSpace and LineTerminator code units
(TAB, LF, VT, FF, CR, SP, NBSP, U+1680, U+2000..U+200A, LS, PS, U+202F,
U+205F, U+3000, U+FEFF). `String.prototype.trim` strips the same set. -/
def wsRanges : List (Nat × Nat) :=
  [(9, 13), (32, 32), (160, 160), (5760, 5760), (8192, 8202), (8232, 8233),
   (8239, 8239), (8287, 8287), (12288, 12288), (65279, 65279)]

/-- The complement of `.` without the `s` flag: LF, CR, LS, PS. -/
def lineTerminators : List (Nat × Nat) := [(10, 10), (13, 13), (8232, 8233)]

def lowerRanges : List (Nat × Nat) := [(97, 122)]

def upperRanges : List (Nat × Nat) := [(65, 90)]

/-- The class `\d`, that is `[0-9]`. -/
def digitRanges : List (Nat × Nat) := [(48, 57)]

/-- The class `[!@#$%^&*]`. -/
def symbolRanges : List (Nat × Nat) :=
  [(33, 33), (64, 64), (35, 35), (36, 36), (37, 37), (94, 94), (38, 38), (42, 42)]

/-- The method `String.prototype.trim`. -/
def trim (s : JSStr) : JSStr :=
  ((s.dropWhile (inRanges wsRanges)).reverse.dropWhile (inRanges wsRanges)).reverse

/-- The call `value.replace(/\s/g, "")`: every whitespace code unit is removed. -/
def stripWs (s : JSStr) : JSStr := s.filter (fun c => !inRanges wsRanges c)

/-! ## Regular expressions

The fragment of ECMAScript patterns used by the two components, with the
backtracking matcher given as the list of all continuations: `run r n s` lists
the remainders of the input that can be left after `r` matches at the start of
`s`, where `n` is the length of the whole input (needed by `^`). -/

inductive RE where
  /-- a character class, `neg` for `[^...]` -/
  | set (neg : Bool) (ranges : List (Nat × Nat))
  /-- the assertion `^` (no `m` flag) -/
  | bos
  /-- the assertion `$` (no `m` flag) -/
  | eos
  | seq (a b : RE)
  /-- the quantifier `?` -/
  | opt (a : RE)
  /-- the quantifier `*` -/
  | star (a : RE)
  /-- the quantifier `+` -/
  | plus (a : RE)
  /-- the quantifier `{lo,hi}` -/
  | rep (a : RE) (lo hi : Nat)
  /-- the lookahead `(?=...)` -/
  | look (a : RE)

/-- Up to `k` further iterations of a step; an iteration that consumes nothing
is rejected, as in ECMAScript. -/
def iterate (f : JSStr → List JSStr) : Nat → JSStr → List JSStr
  | 0, s => [s]
  | k + 1, s =>
    s :: ((f s).filter (fun t => decide (t.length < s.length))).flatMap (iterate f k)

/-- Exactly `k` iterations of a step. -/
def exactly (f : JSStr → List JSStr) : Nat → JSStr → List JSStr
  | 0, s => [s]
  | k + 1, s => (f s).flatMap (exactly f k)

/-- Any number of iterations: each one consumes at least one code unit, so
`s.length` of them exhaust the input. -/
def iterateAll (f : JSStr → List JSStr) (s : JSStr) : List JSStr :=
  iterate f s.length s

def RE.run : RE → Nat → JSStr → List JSStr
  | .set neg rs, _, s =>
    match s with
    | [] => []
    | c :: t => if inRanges rs c != neg then [t] else []
  | .bos, n, s => if s.length = n then [s] else []
  | .eos, _, s => if s.isEmpty then [s] else []
  | .seq a b, n, s => (a.run n s).flatMap (fun t => b.run n t)
  | .opt a, n, s => a.run n s ++ [s]
  | .star a, n, s => iterateAll (fun t => a.run n t) s
  | .plus a, n, s => (a.run n s).flatMap (iterateAll (fun t => a.run n t))
  | .rep a lo hi, n, s =>
    (exactly (fun t => a.run n t) lo s).flatMap (iterate (fun t => a.run n t) (hi - lo))
  | .look a, n, s => if (a.run n s).isEmpty then [] else [s]

/-- The method `RegExp.prototype.test` of a pattern without flags: a match is
tried at every position of the input, the end included. -/
def RE.test (r : RE) (s : JSStr) : Bool :=
  s.tails.any (fun t => !(r.run s.length t).isEmpty)

/-- The class `[^\s@]`. -/
def notWsAt : RE := .set true (wsRanges ++ [(64, 64)])

/-- The pattern `/^[^\s@]+@[^\s@]+\.[^\s@]+$/`. -/
def emailRegex : RE :=
  .seq .bos (.seq (.plus notWsAt) (.seq (.set false [(64, 64)])
    (.seq (.plus notWsAt) (.seq (.set false [(46, 46)]) (.seq (.plus notWsAt) .eos)))))

/-- The pattern `/^\+?[1-9]\d{1,14}$/`. -/
def phoneRegex : RE :=
  .seq .bos (.seq (.opt (.set false [(43, 43)])) (.seq (.set false [(49, 57)])
    (.seq (.rep (.set false digitRanges) 1 14) .eos)))

/-- The pattern `.*` followed by one class, the body of each lookahead. -/
def anyThen (rs : List (Nat × Nat)) : RE :=
  .seq (.star (.set true lineTerminators)) (.set false rs)

/-- The pattern `/(?=.*[a-z])(?=.*[A-Z])(?=.*\d)/`. -/
def passwordRegex : RE :=
  .seq (.look (anyThen lowerRanges))
    (.seq (.look (anyThen upperRanges)) (.look (anyThen digitRanges)))

/-! ## Objects -/

/-- A JavaScript object with string keys, as its own properties in insertion
order. -/
abbrev Obj (α : Type) := List (String × α)

/-- Property read `o[k]`; `none` stands for `undefined`. -/
def Obj.get {α : Type} : Obj α → String → Option α
  | [], _ => none
  | (k', v) :: o, k => if k' = k then some v else Obj.get o k

/-- Property write `o[k] = v`, also the spread `{...o, [k]: v}`: an existing
key keeps its place, a new key goes last. -/
def Obj.set {α : Type} : Obj α → String → α → Obj α
  | [], k, v => [(k, v)]
  | (k', v') :: o, k, v => if k' = k then (k, v) :: o else (k', v') :: Obj.set o k v

/-- The call `Object.keys(o)`. -/
def Obj.keys {α : Type} (o : Obj α) : List String := o.map Prod.fst

/-! ## Registration form (`Register.jsx`) -/

/-- The component state of `AccountCreationForm`, one field per `useState`. -/
structure RegState where
  formData : Obj JSStr
  showPassword : Bool
  showConfirmPassword : Bool
  errors : Obj JSStr
  touched : Obj Bool
  isSubmitting : Bool

/-- The state at mount. -/
def RegState.initial : RegState where
  formData := [("firstName", []), ("lastName", []), ("email", []), ("phoneNumber", []),
    ("password", []), ("confirmPassword", []), ("referralCode", [])]
  showPassword := false
  showConfirmPassword := false
  errors := []
  touched := []
  isSubmitting := false

/-- The function `validateField`, closed over the rendered `formData`. -/
def validateField (formData : Obj JSStr) (name : String) (value : JSStr) : JSStr :=
  if name = "firstName" ∨ name = "lastName" then
    if (trim value).length < 2 then js "Must be at least 2 characters" else js ""
  else if name = "email" then
    if !emailRegex.test value then js "Please enter a valid email address" else js ""
  else if name = "phoneNumber" then
    if !phoneRegex.test (stripWs value) then
      js "Please enter a valid phone number (e.g. +2348000000000)"
    else js ""
  else if name = "password" then
    if value.length < 8 then js "Password must be at least 8 characters"
    else if !passwordRegex.test value then js "Must contain uppercase, lowercase, and number"
    else js ""
  else if name = "confirmPassword" then
    if some value ≠ formData.get "password" then js "Passwords do not match" else js ""
  else js ""

/-- The function `getPasswordStrength`. -/
def getPasswordStrength (password : JSStr) : Nat :=
  let strength := 0
  let strength := if password.length ≥ 8 then strength + 1 else strength
  let strength := if (RE.set false lowerRanges).test password then strength + 1 else strength
  let strength := if (RE.set false upperRanges).test password then strength + 1 else strength
  let strength := if (RE.set false digitRanges).test password then strength + 1 else strength
  let strength := if (RE.set false symbolRanges).test password then strength + 1 else strength
  strength

/-- The handler `handleInputChange` for `e.target = {name, value}`. -/
def handleInputChange (s : RegState) (name : String) (value : JSStr) : RegState :=
  let s1 := { s with formData := s.formData.set name value }
  if s.touched.get name = some true then
    { s1 with errors := s.errors.set name (validateField s.formData name value) }
  else s1

/-- The handler `handleBlur` for `e.target = {name, value}`. -/
def handleBlur (s : RegState) (name : String) (value : JSStr) : RegState :=
  { s with
    touched := s.touched.set name true
    errors := s.errors.set name (validateField s.formData name value) }

/-- What a submit does besides updating the state. -/
inductive RegEffect where
  /-- the two-second timer standing for the API call, then the console log of
  the submitted `formData` -/
  | simulatedApiCall (formData : Obj JSStr)
  deriving DecidableEq

/-- The loop of `handleSubmit` over `Object.keys(formData)` that fills
`newErrors`. A key of the object always has a value, so the `none` branch is
never taken. -/
def collectErrors (formData : Obj JSStr) : Obj JSStr :=
  formData.keys.foldl (fun newErrors key =>
    if key ≠ "referralCode" then
      match formData.get key with
      | some value =>
        let error := validateField formData key value
        if error ≠ [] then newErrors.set key error else newErrors
      | none => newErrors
    else newErrors) []

/-- The reduce of `handleSubmit` that marks every key of `formData` touched. -/
def touchAll (formData : Obj JSStr) : Obj Bool :=
  formData.keys.foldl (fun acc key => acc.set key true) []

/-- The handler `handleSubmit` up to the point where it first gives control
back: the state set so far and, when validation passed and the handler is now
awaiting the two-second timer, the `formData` it captured. When validation
failed nothing is awaited and the handler has already run to its last line,
`setIsSubmitting(false)`. -/
def handleSubmitBegin (s : RegState) : RegState × Option (Obj JSStr) :=
  let s1 := { s with isSubmitting := true }
  let newErrors := collectErrors s.formData
  let s2 := { s1 with errors := newErrors, touched := touchAll s.formData }
  if newErrors.keys.length = 0 then (s2, some s.formData)
  else ({ s2 with isSubmitting := false }, none)

/-- The rest of `handleSubmit` once the timer has fired, on the state of that
moment: the console log of the captured `formData`, then
`setIsSubmitting(false)`. -/
def handleSubmitEnd (s : RegState) (captured : Obj JSStr) : RegState × List RegEffect :=
  ({ s with isSubmitting := false }, [RegEffect.simulatedApiCall captured])

/-- The handler `handleSubmit` run to completion with no other event in
between: the final state and the effects performed. -/
def handleSubmit (s : RegState) : RegState × List RegEffect :=
  match handleSubmitBegin s with
  | (s2, some captured) => handleSubmitEnd s2 captured
  | (s2, none) => (s2, [])

/-- What can happen to the mounted form. -/
inductive RegEvent where
  /-- `onChange` of the input called `name` -/
  | change (name : String) (value : JSStr)
  /-- `onBlur` of the input called `name` -/
  | blur (name : String) (value : JSStr)
  /-- a click on the submit button -/
  | click
  /-- the timer of the oldest awaiting `handleSubmit` fires -/
  | settle

/-- The mounted form: its state and the `formData` captured by each
`handleSubmit` call that is awaiting its timer, oldest first. -/
structure RegSys where
  state : RegState
  inFlight : List (Obj JSStr)

def RegSys.initial : RegSys := { state := RegState.initial, inFlight := [] }

/-- One event. The submit button is rendered with `onClick={handleSubmit}` and
`disabled={isSubmitting}`, and a disabled button dispatches no click. -/
def RegSys.step (sys : RegSys) : RegEvent → RegSys
  | .change name value => { sys with state := handleInputChange sys.state name value }
  | .blur name value => { sys with state := handleBlur sys.state name value }
  | .click =>
    if sys.state.isSubmitting then sys
    else
      match handleSubmitBegin sys.state with
      | (s2, some captured) => { state := s2, inFlight := sys.inFlight ++ [captured] }
      | (s2, none) => { sys with state := s2 }
  | .settle =>
    match sys.inFlight with
    | [] => sys
    | captured :: rest => { state := (handleSubmitEnd sys.state captured).1, inFlight := rest }

/-- A sequence of events from a given form. -/
def RegSys.run (sys : RegSys) (events : List RegEvent) : RegSys :=
  events.foldl RegSys.step sys

/-- A form filled in with values every rule accepts, the referral code left
empty. -/
def filledForm : Obj JSStr :=
  [("firstName", js "Ada"), ("lastName", js "Obi"), ("email", js "ada@example.com"),
   ("phoneNumber", js "+2348000000000"), ("password", js "Passw0rdX"),
   ("confirmPassword", js "Passw0rdX"), ("referralCode", js "")]

/-! ## Sign-in form (`Login.jsx`) -/

/-- A JavaScript value as far as the sign-in handler can see one: the parsed
JSON body of the response and what is read out of it. A number is kept as its
IEEE 754 binary64 bit pattern. -/
inductive JSVal where
  | undefined
  | null
  | bool (b : Bool)
  | num (bits : Nat)
  | str (s : JSStr)
  | arr (items : List JSVal)
  | obj (props : List (String × JSVal))

/-- ToBoolean: `undefined`, `null`, `false`, zero of either sign, NaN and the
empty string are falsy. -/
def JSVal.truthy : JSVal → Bool
  | .undefined => false
  | .null => false
  | .bool b => b
  | .num bits =>
    !(bits % 2 ^ 63 = 0) && !((bits / 2 ^ 52) % 2048 = 2047 ∧ bits % 2 ^ 52 ≠ 0)
  | .str s => !s.isEmpty
  | .arr _ => true
  | .obj _ => true

/-- Property read `v.k` for the names the handler reads (`errors`, `data`,
`loginUser`, `message`), none of which a primitive or an array has; `none`
stands for the TypeError thrown on `undefined` and `null`. -/
def JSVal.prop : JSVal → String → Option JSVal
  | .undefined, _ => none
  | .null, _ => none
  | .obj props, k => some ((Obj.get props k).getD .undefined)
  | _, _ => some .undefined

/-- Indexed read `v[0]` of a truthy value. -/
def JSVal.first : JSVal → JSVal
  | .arr items => items.headD .undefined
  | .obj props => (Obj.get props "0").getD .undefined
  | .str (c :: _) => .str [c]
  | _ => .undefined

/-- Optional read `v?.k`. -/
def JSVal.optProp : JSVal → String → Option JSVal
  | .undefined, _ => some .undefined
  | .null, _ => some .undefined
  | v, k => v.prop k

/-- The component state of `CloudnotteLogin`, one field per `useState`. -/
structure LoginState where
  showPassword : Bool
  keepLoggedIn : Bool
  email : JSStr
  password : JSStr
  errors : Obj JSVal

/-- The input sent to the `loginUser` mutation. -/
structure LoginRequest where
  identifier : JSStr
  password : JSStr
  deriving DecidableEq

/-- How the awaited `fetch` and `response.json()` settle. -/
inductive FetchOutcome where
  /-- the call `fetch` rejects -/
  | fetchRejects
  /-- the body is not JSON: `response.json()` rejects -/
  | jsonRejects
  /-- the parsed body -/
  | body (result : JSVal)

/-- The function `validateForm`: the state after `setErrors(newErrors)` and the
returned flag. -/
def validateForm (s : LoginState) : LoginState × Bool :=
  let newErrors : Obj JSVal := []
  let newErrors :=
    if s.email.isEmpty then newErrors.set "email" (.str (js "Email/Username is required"))
    else newErrors
  let newErrors :=
    if s.password.isEmpty then newErrors.set "password" (.str (js "Password is required"))
    else newErrors
  ({ s with errors := newErrors }, newErrors.keys.length = 0)

/-- The body of the `try` block after the response is parsed: the argument of
the `setErrors` call it reaches, or `none` when it throws first. `errors` is
the value captured by the handler at render. -/
def onResult (errors : Obj JSVal) (result : JSVal) : Option (Obj JSVal) := do
  let resultErrors ← result.prop "errors"
  if resultErrors.truthy then
    let message ← resultErrors.first.optProp "message"
    some (Obj.set errors "form"
      (if message.truthy then message else .str (js "Failed to log in. Please try again.")))
  else
    let data ← result.prop "data"
    let _ ← data.prop "loginUser"
    some []

/-- The `catch` block. -/
def onCatch (errors : Obj JSVal) : Obj JSVal :=
  Obj.set errors "form"
    (.str (js "Network error occurred. Please check your connection and try again."))

/-- The sign-in handler `handleSubmit`, run to completion against the outcome
of its one request: the final state and the requests issued. The `errors`
spread in both `setErrors` calls is the one of the render the handler was
created in, that is `s.errors`, not the value just set by `validateForm`. -/
def Login.handleSubmit (s : LoginState) (net : FetchOutcome) :
    LoginState × List LoginRequest :=
  let (s1, ok) := validateForm s
  if ok then
    let inputData : LoginRequest := { identifier := s.email, password := s.password }
    let settled :=
      match net with
      | .fetchRejects => none
      | .jsonRejects => none
      | .body result => onResult s.errors result
    match settled with
    | some newErrors => ({ s1 with errors := newErrors }, [inputData])
    | none => ({ s1 with errors := onCatch s.errors }, [inputData])
  else (s1, [])

/-! ## The specification's wording of the strength criteria -/

/-- The five criteria of the strength score as the specification words them:
length at least 8, a lowercase letter, an uppercase letter, a digit, a symbol
among `!@#$%^&*`. -/
def specCriteria (p : JSStr) : List Bool :=
  [decide (8 ≤ p.length),
   p.any (fun c => decide (97 ≤ c ∧ c ≤ 122)),
   p.any (fun c => decide (65 ≤ c ∧ c ≤ 90)),
   p.any (fun c => decide (48 ≤ c ∧ c ≤ 57)),
   p.any (fun c => decide (c ∈ [33, 64, 35, 36, 37, 94, 38, 42]))]

/-! ## Concrete inputs -/

/-- Nine code units: `aaaaaa`, the line separator U+2028, `A1`. An input of
type `password` keeps U+2028; only LF and CR are stripped from its value. -/
def lineSeparatorPassword : JSStr := js "aaaaaa" ++ [8232] ++ js "A1"

/-- The filled form with `lineSeparatorPassword` as password and confirmation. -/
def lineSeparatorForm : Obj JSStr :=
  (Obj.set filledForm "password" lineSeparatorPassword).set "confirmPassword"
    lineSeparatorPassword

/-- The filled form with the email replaced by `not-an-email`. -/
def badEmailForm : Obj JSStr := Obj.set filledForm "email" (js "not-an-email")

/-- The form `lineSeparatorForm` with the email replaced by `not-an-email`. -/
def badEmailLineSeparatorForm : Obj JSStr :=
  Obj.set lineSeparatorForm "email" (js "not-an-email")

/-- A registration state around a given `formData`. -/
def RegState.ofForm (formData : Obj JSStr) (isSubmitting : Bool) : RegState :=
  { RegState.initial with formData := formData, isSubmitting := isSubmitting }

/-- The response body `{"errors": [{"message": m}]}`. -/
def errorResponse (m : JSStr) : FetchOutcome :=
  .body (.obj [("errors", .arr [.obj [("message", .str m)]])])

/-- The two field errors set by a submit of the empty sign-in form. -/
def requiredErrors : Obj JSVal :=
  [("email", .str (js "Email/Username is required")),
   ("password", .str (js "Password is required"))]

/-- A sign-in state with the given fields and displayed errors. -/
def LoginState.ofFields (email password : JSStr) (errors : Obj JSVal) : LoginState :=
  { showPassword := false, keepLoggedIn := false, email := email, password := password,
    errors := errors }

/-! ## Auxiliary definitions for the proofs -/

/-- The error the loop of `handleSubmit` finds for one key; empty when the key
is skipped or valid. -/
def errorOf (formData : Obj JSStr) (key : String) : JSStr :=
  if key ≠ "referralCode" then
    match formData.get key with
    | some value => validateField formData key value
    | none => []
  else []

/-- While a submission awaits its timer the form is in the submitting state,
and no second one is awaiting. -/
def RegSys.Guarded (sys : RegSys) : Prop :=
  sys.inFlight.length ≤ 1 ∧ (sys.inFlight ≠ [] → sys.state.isSubmitting = true)

/-! ## The specification's wording of the phone and email rules -/

/-- The whitespace characters, listed one by one: TAB, LF, VT, FF, CR, SP, NBSP,
U+1680, U+2000 to U+200A, LS, PS, U+202F, U+205F, U+3000 and U+FEFF. -/
def specWhitespace (c : Nat) : Bool :=
  decide (c ∈ [9, 10, 11, 12, 13, 32, 160, 5760, 8192, 8193, 8194, 8195, 8196, 8197, 8198,
    8199, 8200, 8201, 8202, 8232, 8233, 8239, 8287, 12288, 65279])

/-- A string with every whitespace character removed. -/
def specStrip (v : JSStr) : JSStr := v.filter (fun c => !specWhitespace c)

/-- A string without its leading and trailing whitespace characters. -/
def specTrim (v : JSStr) : JSStr :=
  ((v.dropWhile specWhitespace).reverse.dropWhile specWhitespace).reverse

/-- The phone rule as the specification words it: an optional leading `+`, then
one digit 1-9, then between 1 and 14 further digits 0-9, and nothing else. -/
def specPhone (w : JSStr) : Prop :=
  ∃ (sign : JSStr) (d : Nat) (ds : JSStr), w = sign ++ d :: ds ∧ (sign = [] ∨ sign = [43]) ∧
    (49 ≤ d ∧ d ≤ 57) ∧ (1 ≤ ds.length ∧ ds.length ≤ 14) ∧ ∀ c ∈ ds, 48 ≤ c ∧ c ≤ 57

/-- The email rule as the specification words it: no whitespace character,
exactly one `@`, a non-empty local part before it, and a domain after it that
holds a `.` which is neither its first nor its last character. -/
def specEmail (v : JSStr) : Prop :=
  (∀ c ∈ v, specWhitespace c = false) ∧ v.count 64 = 1 ∧
    ∃ l d : JSStr, v = l ++ 64 :: d ∧ l ≠ [] ∧
      ∃ d1 d2 : JSStr, d = d1 ++ 46 :: d2 ∧ d1 ≠ [] ∧ d2 ≠ []

/-- The rules of the registration fields as the specification's table words
them; a field without a rule is always in order. -/
def specRule (formData : Obj JSStr) (f : String) (v : JSStr) : Prop :=
  if f = "firstName" ∨ f = "lastName" then 2 ≤ (specTrim v).length
  else if f = "email" then specEmail v
  else if f = "phoneNumber" then specPhone (specStrip v)
  else if f = "password" then
    8 ≤ v.length ∧ (∃ c ∈ v, 97 ≤ c ∧ c ≤ 122) ∧ (∃ c ∈ v, 65 ≤ c ∧ c ≤ 90) ∧
      (∃ c ∈ v, 48 ≤ c ∧ c ≤ 57)
  else if f = "confirmPassword" then formData.get "password" = some v
  else True

/-! ## Event sequences of the rendered form -/

/-- Whether the rendered form can produce an event in a given state: its inputs
are controlled, so a blur reports the value `formData` holds for that input. -/
def RegSys.canOccur (sys : RegSys) : RegEvent → Bool
  | .blur name value => decide (sys.state.formData.get name = some value)
  | _ => true

/-- Whether the rendered form can produce a sequence of events. -/
def RegSys.faithful : RegSys → List RegEvent → Bool
  | _, [] => true
  | sys, e :: es => sys.canOccur e && RegSys.faithful (sys.step e) es

/-- Type an email address, leave the field, then click on submit. -/
def emailThenSubmitEvents : List RegEvent :=
  [.change "email" (js "ada@example.com"), .blur "email" (js "ada@example.com"), .click]

/-- Type a password, type the same confirmation, leave the confirmation field,
then change the password. -/
def staleConfirmEvents : List RegEvent :=
  [.change "password" (js "Passw0rdX"), .change "confirmPassword" (js "Passw0rdX"),
   .blur "confirmPassword" (js "Passw0rdX"), .change "password" (js "Passw0rdY")]

/-- In a form with this property a touched field other than `confirmPassword`
whose error is absent or empty holds a value its validator accepts. -/
def RegSys.ErrorsAgree (sys : RegSys) : Prop :=
  ∀ (f : String) (v : JSStr), f ≠ "confirmPassword" → sys.state.touched.get f = some true →
    sys.state.formData.get f = some v →
    (sys.state.errors.get f = none ∨ sys.state.errors.get f = some []) →
    validateField sys.state.formData f v = []

/-! ## Lemmas on the matcher -/

theorem inRanges_single (lo hi c : Nat) :
    inRanges [(lo, hi)] c = true ↔ lo ≤ c ∧ c ≤ hi := by
  simp [inRanges]

/-- The class `\s` of the code is the whitespace of the specification. -/
theorem inRanges_wsRanges (c : Nat) : inRanges wsRanges c = specWhitespace c := by
  rw [Bool.eq_iff_iff]
  simp only [inRanges, wsRanges, specWhitespace, List.any_cons, List.any_nil, Bool.or_false,
    Bool.or_eq_true, Bool.and_eq_true, decide_eq_true_eq, List.mem_cons, List.mem_singleton,
    List.mem_nil_iff, or_false]
  omega

theorem stripWs_eq_specStrip (v : JSStr) : stripWs v = specStrip v := by
  unfold stripWs specStrip
  congr 1
  funext c
  rw [inRanges_wsRanges]

theorem trim_eq_specTrim (v : JSStr) : trim v = specTrim v := by
  have h : inRanges wsRanges = specWhitespace := funext inRanges_wsRanges
  unfold trim specTrim
  rw [h]

theorem run_seq (a b : RE) (n : Nat) (s : JSStr) :
    (RE.seq a b).run n s = (a.run n s).flatMap (fun t => b.run n t) := by
  rw [RE.run]

theorem run_look (a : RE) (n : Nat) (s : JSStr) :
    (RE.look a).run n s = if (a.run n s).isEmpty then [] else [s] := by
  rw [RE.run]

theorem run_star (a : RE) (n : Nat) (s : JSStr) :
    (RE.star a).run n s = iterateAll (fun t => a.run n t) s := by
  rw [RE.run]

theorem mem_run_look_seq {a b : RE} {n : Nat} {s t : JSStr} :
    t ∈ (RE.seq (.look a) b).run n s ↔ (a.run n s).isEmpty = false ∧ t ∈ b.run n s := by
  rw [run_seq, run_look]
  by_cases h : (a.run n s).isEmpty = true <;> simp [h]

theorem mem_run_look {a : RE} {n : Nat} {s t : JSStr} :
    t ∈ (RE.look a).run n s ↔ (a.run n s).isEmpty = false ∧ t = s := by
  rw [run_look]
  by_cases h : (a.run n s).isEmpty = true <;> simp [h]

theorem run_set_mem {neg : Bool} {rs : List (Nat × Nat)} {n : Nat} {s t : JSStr}
    (h : t ∈ (RE.set neg rs).run n s) :
    ∃ c, s = c :: t ∧ (inRanges rs c != neg) = true := by
  cases s with
  | nil => simp [RE.run] at h
  | cons c u =>
    by_cases hc : (inRanges rs c != neg) = true
    · simp only [RE.run, hc, if_true, List.mem_singleton] at h
      exact ⟨c, by rw [h], hc⟩
    · simp [RE.run, hc] at h

theorem iterate_suffix (f : JSStr → List JSStr) (hf : ∀ s t, t ∈ f s → t <:+ s) :
    ∀ k s t, t ∈ iterate f k s → t <:+ s := by
  intro k
  induction k with
  | zero =>
    intro s t h
    simp only [iterate, List.mem_singleton] at h
    rw [h]
  | succ k ih =>
    intro s t h
    simp only [iterate, List.mem_cons, List.mem_flatMap, List.mem_filter] at h
    rcases h with h | ⟨u, ⟨hu, _⟩, ht⟩
    · rw [h]
    · exact (ih u t ht).trans (hf s u hu)

theorem exactly_suffix (f : JSStr → List JSStr) (hf : ∀ s t, t ∈ f s → t <:+ s) :
    ∀ k s t, t ∈ exactly f k s → t <:+ s := by
  intro k
  induction k with
  | zero =>
    intro s t h
    simp only [exactly, List.mem_singleton] at h
    rw [h]
  | succ k ih =>
    intro s t h
    simp only [exactly, List.mem_flatMap] at h
    rcases h with ⟨u, hu, ht⟩
    exact (ih u t ht).trans (hf s u hu)

/-- Whatever a pattern leaves is a suffix of what it was given. -/
theorem run_suffix (r : RE) : ∀ (n : Nat) (s t : JSStr), t ∈ r.run n s → t <:+ s := by
  induction r with
  | set neg rs =>
    intro n s t h
    obtain ⟨c, hs, _⟩ := run_set_mem h
    rw [hs]
    exact List.suffix_cons c t
  | bos =>
    intro n s t h
    by_cases hn : s.length = n
    · simp only [RE.run, hn, if_true, List.mem_singleton] at h
      rw [h]
    · simp [RE.run, hn] at h
  | eos =>
    intro n s t h
    by_cases hn : s.isEmpty = true
    · simp only [RE.run, hn, if_true, List.mem_singleton] at h
      rw [h]
    · simp [RE.run, hn] at h
  | seq a b iha ihb =>
    intro n s t h
    simp only [RE.run, List.mem_flatMap] at h
    rcases h with ⟨u, hu, ht⟩
    exact (ihb n u t ht).trans (iha n s u hu)
  | opt a iha =>
    intro n s t h
    simp only [RE.run, List.mem_append, List.mem_singleton] at h
    rcases h with h | h
    · exact iha n s t h
    · rw [h]
  | star a iha =>
    intro n s t h
    exact iterate_suffix _ (fun s t => iha n s t) _ s t h
  | plus a iha =>
    intro n s t h
    simp only [RE.run, List.mem_flatMap] at h
    rcases h with ⟨u, hu, ht⟩
    exact (iterate_suffix _ (fun s t => iha n s t) _ u t ht).trans (iha n s u hu)
  | rep a lo hi iha =>
    intro n s t h
    simp only [RE.run, List.mem_flatMap] at h
    rcases h with ⟨u, hu, ht⟩
    exact (iterate_suffix _ (fun s t => iha n s t) _ u t ht).trans
      (exactly_suffix _ (fun s t => iha n s t) _ s u hu)
  | look a _ =>
    intro n s t h
    rw [(mem_run_look.mp h).2]

/-- A pattern made of one class matches somewhere exactly when some code unit
of the input is in the class. -/
theorem test_set (rs : List (Nat × Nat)) (s : JSStr) :
    (RE.set false rs).test s = s.any (inRanges rs) := by
  unfold RE.test
  generalize s.length = n
  induction s with
  | nil => simp [RE.run]
  | cons c s ih =>
    rw [List.tails, List.any_cons, ih, List.any_cons]
    congr 1
    by_cases hc : inRanges rs c = true <;> simp [RE.run, hc]

/-- If `.*[class]` matches at the start of `t`, a code unit of `t` is in the class. -/
theorem anyThen_mem {rs : List (Nat × Nat)} {n : Nat} {t : JSStr}
    (h : ((anyThen rs).run n t).isEmpty = false) : ∃ c ∈ t, inRanges rs c = true := by
  obtain ⟨u, hu⟩ := List.exists_mem_of_ne_nil _ (by simpa [List.isEmpty_iff] using h)
  rw [anyThen, run_seq, List.mem_flatMap] at hu
  obtain ⟨w, hw, hu⟩ := hu
  obtain ⟨c, hc, hin⟩ := run_set_mem hu
  have hsuf : w <:+ t := run_suffix (.star (.set true lineTerminators)) n t w hw
  refine ⟨c, hsuf.subset (by rw [hc]; exact List.mem_cons_self c u), ?_⟩
  simpa using hin

/-- The composition pattern matches only inputs that hold a lowercase letter, an
uppercase letter and a digit. -/
theorem passwordRegex_sound {v : JSStr} (h : passwordRegex.test v = true) :
    (∃ c ∈ v, inRanges lowerRanges c = true) ∧ (∃ c ∈ v, inRanges upperRanges c = true) ∧
      (∃ c ∈ v, inRanges digitRanges c = true) := by
  simp only [RE.test, List.any_eq_true, List.mem_tails] at h
  obtain ⟨t, ht, hrun⟩ := h
  have key : ∀ rs, ((anyThen rs).run v.length t).isEmpty = false →
      ∃ c ∈ v, inRanges rs c = true := by
    intro rs hrs
    obtain ⟨c, hc, hin⟩ := anyThen_mem hrs
    exact ⟨c, ht.subset hc, hin⟩
  obtain ⟨u, hu⟩ := List.exists_mem_of_ne_nil _ (by simpa [List.isEmpty_iff] using hrun)
  rw [passwordRegex, mem_run_look_seq, mem_run_look_seq, mem_run_look] at hu
  exact ⟨key _ hu.1, key _ hu.2.1, key _ hu.2.2.1⟩

theorem iterate_dot_skip (f : JSStr → List JSStr) (c : Nat) (u : JSStr)
    (hf : ∀ x t, inRanges lineTerminators x = false → f (x :: t) = [t]) :
    ∀ (p : JSStr) (k : Nat), p.length ≤ k →
      (∀ x ∈ p, inRanges lineTerminators x = false) → c :: u ∈ iterate f k (p ++ c :: u) := by
  intro p
  induction p with
  | nil =>
    intro k _ _
    cases k <;> simp [iterate]
  | cons x p ih =>
    intro k hk hp
    cases k with
    | zero => simp at hk
    | succ k =>
      have hx : inRanges lineTerminators x = false := hp x (List.mem_cons_self x p)
      have hrest : c :: u ∈ iterate f k (p ++ c :: u) :=
        ih k (by simpa using hk) (fun y hy => hp y (List.mem_cons_of_mem x hy))
      simp only [List.cons_append, iterate, hf x _ hx, List.mem_cons, List.mem_flatMap,
        List.mem_filter, List.mem_singleton]
      right
      exact ⟨p ++ c :: u, ⟨by simp, by simp⟩, hrest⟩

/-- The pattern `.*[class]` matches at the start of an input whose first member
of the class comes before any line terminator. -/
theorem anyThen_of_split {rs : List (Nat × Nat)} {n : Nat} {p u : JSStr} {c : Nat}
    (hp : ∀ x ∈ p, inRanges lineTerminators x = false) (hc : inRanges rs c = true) :
    ((anyThen rs).run n (p ++ c :: u)).isEmpty = false := by
  have hmem : c :: u ∈ (RE.star (.set true lineTerminators)).run n (p ++ c :: u) := by
    rw [run_star]
    refine iterate_dot_skip _ c u ?_ p _ (by simp) hp
    intro x t hx
    simp [RE.run, hx]
  have hu : u ∈ (anyThen rs).run n (p ++ c :: u) := by
    rw [anyThen, run_seq, List.mem_flatMap]
    exact ⟨c :: u, hmem, by simp [RE.run, hc]⟩
  cases hrun : (anyThen rs).run n (p ++ c :: u) with
  | nil => rw [hrun] at hu; simp at hu
  | cons a l => rfl

/-- On an input without line terminators the composition pattern matches as
soon as the input holds a lowercase letter, an uppercase letter and a digit. -/
theorem passwordRegex_complete {v : JSStr}
    (hlt : ∀ x ∈ v, inRanges lineTerminators x = false)
    (hl : ∃ c ∈ v, inRanges lowerRanges c = true) (hu : ∃ c ∈ v, inRanges upperRanges c = true)
    (hd : ∃ c ∈ v, inRanges digitRanges c = true) : passwordRegex.test v = true := by
  have key : ∀ rs, (∃ c ∈ v, inRanges rs c = true) →
      ((anyThen rs).run v.length v).isEmpty = false := by
    intro rs ⟨c, hc, hin⟩
    obtain ⟨p, u, hv⟩ := List.append_of_mem hc
    have hp : ∀ x ∈ p, inRanges lineTerminators x = false := by
      intro x hx
      exact hlt x (by rw [hv]; exact List.mem_append_left _ hx)
    have := @anyThen_of_split rs v.length p u c hp hin
    rwa [← hv] at this
  have hv : v ∈ passwordRegex.run v.length v := by
    rw [passwordRegex, mem_run_look_seq, mem_run_look_seq, mem_run_look]
    exact ⟨key _ hl, key _ hu, key _ hd, rfl⟩
  simp only [RE.test, List.any_eq_true, List.mem_tails]
  refine ⟨v, List.suffix_refl v, ?_⟩
  cases hrun : passwordRegex.run v.length v with
  | nil => rw [hrun] at hv; simp at hv
  | cons a l => rfl

theorem validateField_password (formData : Obj JSStr) (v : JSStr) :
    validateField formData "password" v =
      if v.length < 8 then js "Password must be at least 8 characters"
      else if !passwordRegex.test v then js "Must contain uppercase, lowercase, and number"
      else js "" := by
  rfl

theorem validateField_confirmPassword (formData : Obj JSStr) (v : JSStr) :
    validateField formData "confirmPassword" v =
      if some v ≠ formData.get "password" then js "Passwords do not match" else js "" := by
  rfl

/-! ## The password rule -/

/-- C3, evaluated on the code: the password `lineSeparatorPassword` has length
at least 8 and holds a lowercase letter, an uppercase letter and a
digit, yet `validateField` answers with the composition message, because `.`
in the lookaheads does not cross the line separator. -/
theorem validateField_password_line_separator :
    8 ≤ lineSeparatorPassword.length ∧
    (∃ c ∈ lineSeparatorPassword, 97 ≤ c ∧ c ≤ 122) ∧
    (∃ c ∈ lineSeparatorPassword, 65 ≤ c ∧ c ≤ 90) ∧
    (∃ c ∈ lineSeparatorPassword, 48 ≤ c ∧ c ≤ 57) ∧
    validateField RegState.initial.formData "password" lineSeparatorPassword =
      js "Must contain uppercase, lowercase, and number" ∧
    getPasswordStrength lineSeparatorPassword = 4 := by
  decide

/-- The acceptance direction of the password rule on inputs without line
terminators: length at least 8 with a lowercase letter, an uppercase letter
and a digit gives no error. -/
theorem validateField_password_accepts (formData : Obj JSStr) (v : JSStr)
    (hlen : 8 ≤ v.length) (hlt : ∀ x ∈ v, ¬ (x = 10 ∨ x = 13 ∨ x = 8232 ∨ x = 8233))
    (hl : ∃ c ∈ v, 97 ≤ c ∧ c ≤ 122) (hu : ∃ c ∈ v, 65 ≤ c ∧ c ≤ 90)
    (hd : ∃ c ∈ v, 48 ≤ c ∧ c ≤ 57) :
    validateField formData "password" v = js "" := by
  have hre : passwordRegex.test v = true := by
    apply passwordRegex_complete
    · intro x hx
      have := hlt x hx
      simp only [lineTerminators, inRanges, List.any_cons, List.any_nil, Bool.or_false,
        Bool.or_eq_false_iff, Bool.and_eq_false_imp, decide_eq_true_eq, decide_eq_false_iff_not]
      omega
    · obtain ⟨c, hc, h⟩ := hl
      exact ⟨c, hc, (inRanges_single 97 122 c).mpr h⟩
    · obtain ⟨c, hc, h⟩ := hu
      exact ⟨c, hc, (inRanges_single 65 90 c).mpr h⟩
    · obtain ⟨c, hc, h⟩ := hd
      exact ⟨c, hc, (inRanges_single 48 57 c).mpr h⟩
  rw [validateField_password, if_neg (by omega), hre]
  rfl

/-- C4: a password shorter than 8 code units gets the length message, whatever
it is made of, and that message is not the composition message. -/
theorem validateField_password_short (formData : Obj JSStr) (v : JSStr)
    (hlen : v.length < 8) :
    validateField formData "password" v = js "Password must be at least 8 characters" ∧
      validateField formData "password" v ≠
        js "Must contain uppercase, lowercase, and number" := by
  rw [validateField_password, if_pos hlen]
  exact ⟨rfl, by decide⟩

theorem validateField_password_short_witness :
    (js "aB1").length < 8 ∧
      validateField [] "password" (js "aB1") = js "Password must be at least 8 characters" ∧
      validateField [] "password" (js "aB1") ≠
        js "Must contain uppercase, lowercase, and number" :=
  ⟨by decide, validateField_password_short [] (js "aB1") (by decide)⟩

/-- C5: a password of at least 8 code units that lacks a lowercase letter, or an
uppercase letter, or a digit gets the composition message. -/
theorem validateField_password_composition (formData : Obj JSStr) (v : JSStr)
    (hlen : 8 ≤ v.length)
    (hmiss : (¬ ∃ c ∈ v, 97 ≤ c ∧ c ≤ 122) ∨ (¬ ∃ c ∈ v, 65 ≤ c ∧ c ≤ 90) ∨
      (¬ ∃ c ∈ v, 48 ≤ c ∧ c ≤ 57)) :
    validateField formData "password" v =
      js "Must contain uppercase, lowercase, and number" := by
  have hre : passwordRegex.test v = false := by
    cases hre : passwordRegex.test v with
    | false => rfl
    | true =>
      exfalso
      obtain ⟨⟨c1, hc1, h1⟩, ⟨c2, hc2, h2⟩, ⟨c3, hc3, h3⟩⟩ := passwordRegex_sound hre
      rcases hmiss with h | h | h
      · exact h ⟨c1, hc1, (inRanges_single 97 122 c1).mp h1⟩
      · exact h ⟨c2, hc2, (inRanges_single 65 90 c2).mp h2⟩
      · exact h ⟨c3, hc3, (inRanges_single 48 57 c3).mp h3⟩
  rw [validateField_password, if_neg (by omega), hre]
  rfl

theorem validateField_password_composition_witness :
    8 ≤ (js "abcdefg1").length ∧
      ((¬ ∃ c ∈ js "abcdefg1", 97 ≤ c ∧ c ≤ 122) ∨ (¬ ∃ c ∈ js "abcdefg1", 65 ≤ c ∧ c ≤ 90) ∨
        (¬ ∃ c ∈ js "abcdefg1", 48 ≤ c ∧ c ≤ 57)) ∧
      validateField [] "password" (js "abcdefg1") =
        js "Must contain uppercase, lowercase, and number" :=
  ⟨by decide, by decide,
    validateField_password_composition [] (js "abcdefg1") (by decide) (by decide)⟩

/-- C6: against a current password `p`, `validateField` on `confirmPassword`
gives no error for `p` itself and "Passwords do not match" for any other
string; nothing is asked of `p`. -/
theorem validateField_confirmPassword_iff (formData : Obj JSStr) (p v : JSStr)
    (hp : formData.get "password" = some p) :
    (v = p → validateField formData "confirmPassword" v = js "") ∧
      (v ≠ p → validateField formData "confirmPassword" v = js "Passwords do not match") := by
  rw [validateField_confirmPassword, hp]
  constructor
  · intro h
    rw [if_neg (by simp [h])]
  · intro h
    rw [if_pos (by simpa using h)]

theorem validateField_confirmPassword_iff_witness :
    Obj.get [("password", js "")] "password" = some (js "") ∧
      (js " " = js "" →
        validateField [("password", js "")] "confirmPassword" (js " ") = js "") ∧
      (js " " ≠ js "" →
        validateField [("password", js "")] "confirmPassword" (js " ") =
          js "Passwords do not match") :=
  ⟨by decide, validateField_confirmPassword_iff [("password", js "")] (js "") (js " ") (by decide)⟩

/-! ## The strength score -/

theorem any_inRanges_single (lo hi : Nat) (p : JSStr) :
    p.any (inRanges [(lo, hi)]) = p.any (fun c => decide (lo ≤ c ∧ c ≤ hi)) := by
  congr 1
  funext c
  simp [inRanges]

theorem any_inRanges_symbol (p : JSStr) :
    p.any (inRanges symbolRanges) =
      p.any (fun c => decide (c ∈ [33, 64, 35, 36, 37, 94, 38, 42])) := by
  congr 1
  funext c
  rw [Bool.eq_iff_iff]
  simp only [inRanges, symbolRanges, List.any_cons, List.any_nil, Bool.or_false,
    Bool.or_eq_true, Bool.and_eq_true, decide_eq_true_eq, List.mem_cons, List.mem_singleton,
    List.mem_nil_iff, or_false]
  omega

theorem getPasswordStrength_eq (p : JSStr) :
    getPasswordStrength p = (specCriteria p).count true := by
  simp only [getPasswordStrength, test_set, lowerRanges, upperRanges, digitRanges,
    any_inRanges_single, any_inRanges_symbol, specCriteria, ge_iff_le]
  by_cases h1 : 8 ≤ p.length <;>
  cases h2 : p.any (fun c => decide (97 ≤ c ∧ c ≤ 122)) <;>
  cases h3 : p.any (fun c => decide (65 ≤ c ∧ c ≤ 90)) <;>
  cases h4 : p.any (fun c => decide (48 ≤ c ∧ c ≤ 57)) <;>
  cases h5 : p.any (fun c => decide (c ∈ [33, 64, 35, 36, 37, 94, 38, 42])) <;>
  simp [h1]

theorem count_true_mono : ∀ (a b : List Bool),
    (∀ i : Nat, a[i]? = some true → b[i]? = some true) → a.count true ≤ b.count true := by
  intro a
  induction a with
  | nil => intro b _; simp
  | cons x a ih =>
    intro b h
    cases b with
    | nil =>
      cases x with
      | true => simpa using h 0
      | false =>
        have : a.count true ≤ ([] : List Bool).count true :=
          ih [] (fun i hi => by simpa using h (i + 1) (by simpa using hi))
        simpa using this
    | cons y b =>
      have hrest : a.count true ≤ b.count true :=
        ih b (fun i hi => by simpa using h (i + 1) (by simpa using hi))
      have h0 := h 0
      cases x <;> cases y <;> simp at h0 ⊢ <;> omega

/-- C7: the strength score is the number of the five criteria the password
meets, so it lies between 0 and 5, and a password that meets every criterion
another one meets scores at least as much. -/
theorem getPasswordStrength_counts (p : JSStr) :
    getPasswordStrength p = (specCriteria p).count true ∧
      0 ≤ getPasswordStrength p ∧ getPasswordStrength p ≤ 5 ∧
      ∀ q : JSStr, (∀ i : Nat, (specCriteria p)[i]? = some true → (specCriteria q)[i]? = some true) →
        getPasswordStrength p ≤ getPasswordStrength q := by
  refine ⟨getPasswordStrength_eq p, Nat.zero_le _, ?_, ?_⟩
  · rw [getPasswordStrength_eq]
    exact (List.count_le_length true (specCriteria p)).trans (by simp [specCriteria])
  · intro q h
    rw [getPasswordStrength_eq, getPasswordStrength_eq]
    exact count_true_mono _ _ h

/-! ## Objects -/

theorem Obj.get_set {α : Type} (o : Obj α) (k k' : String) (v : α) :
    (Obj.set o k v).get k' = if k = k' then some v else o.get k' := by
  induction o with
  | nil => simp [Obj.set, Obj.get]
  | cons e o ih =>
    obtain ⟨k0, v0⟩ := e
    by_cases h0 : k0 = k
    · subst h0
      by_cases h1 : k0 = k' <;> simp [Obj.set, Obj.get, h1]
    · by_cases h1 : k0 = k'
      · subst h1
        simp [Obj.set, Obj.get, h0, Ne.symm h0]
      · simp [Obj.set, Obj.get, h0, h1, ih]

theorem Obj.get_isSome_of_mem_keys {α : Type} (o : Obj α) (k : String) (h : k ∈ o.keys) :
    ∃ v, o.get k = some v := by
  induction o with
  | nil => simp [Obj.keys] at h
  | cons e o ih =>
    obtain ⟨k0, v0⟩ := e
    by_cases h0 : k0 = k
    · exact ⟨v0, by simp [Obj.get, h0]⟩
    · have hk : k ∈ Obj.keys o := by
        simp only [Obj.keys, List.map_cons, List.mem_cons] at h
        rcases h with h | h
        · exact absurd h.symm h0
        · exact h
      obtain ⟨v, hv⟩ := ih hk
      exact ⟨v, by simp [Obj.get, h0, hv]⟩

theorem Obj.mem_keys_of_get {α : Type} (o : Obj α) (k : String) (v : α)
    (h : o.get k = some v) : k ∈ o.keys := by
  induction o with
  | nil => simp [Obj.get] at h
  | cons e o ih =>
    obtain ⟨k0, v0⟩ := e
    by_cases h0 : k0 = k
    · simp [Obj.keys, h0]
    · simp only [Obj.get, h0, if_false] at h
      have := ih h
      simp only [Obj.keys, List.map_cons, List.mem_cons]
      exact Or.inr this

/-! ## The field validator, field by field -/

theorem validateField_firstName (formData : Obj JSStr) (v : JSStr) :
    validateField formData "firstName" v =
      if (trim v).length < 2 then js "Must be at least 2 characters" else js "" := by
  rfl

theorem validateField_lastName (formData : Obj JSStr) (v : JSStr) :
    validateField formData "lastName" v =
      if (trim v).length < 2 then js "Must be at least 2 characters" else js "" := by
  rfl

theorem validateField_email (formData : Obj JSStr) (v : JSStr) :
    validateField formData "email" v =
      if !emailRegex.test v then js "Please enter a valid email address" else js "" := by
  rfl

theorem validateField_phoneNumber (formData : Obj JSStr) (v : JSStr) :
    validateField formData "phoneNumber" v =
      if !phoneRegex.test (stripWs v) then
        js "Please enter a valid phone number (e.g. +2348000000000)"
      else js "" := by
  rfl

theorem validateField_default (formData : Obj JSStr) (name : String) (v : JSStr)
    (h1 : name ≠ "firstName") (h2 : name ≠ "lastName") (h3 : name ≠ "email")
    (h4 : name ≠ "phoneNumber") (h5 : name ≠ "password") (h6 : name ≠ "confirmPassword") :
    validateField formData name v = js "" := by
  simp [validateField, h1, h2, h3, h4, h5, h6]

/-! ## The validation loop of the registration submit -/

theorem collectErrors_eq (formData : Obj JSStr) :
    collectErrors formData =
      formData.keys.foldl (fun newErrors key =>
        if errorOf formData key ≠ [] then Obj.set newErrors key (errorOf formData key)
        else newErrors) [] := by
  unfold collectErrors
  congr 1
  funext newErrors key
  unfold errorOf
  by_cases hk : key = "referralCode"
  · simp [hk]
  · cases hget : formData.get key <;> simp [hk]

theorem foldl_errors_none (formData : Obj JSStr) (keys : List String)
    (h : ∀ key ∈ keys, errorOf formData key = []) (acc : Obj JSStr) :
    keys.foldl (fun newErrors key =>
        if errorOf formData key ≠ [] then Obj.set newErrors key (errorOf formData key)
        else newErrors) acc = acc := by
  induction keys generalizing acc with
  | nil => rfl
  | cons k keys ih =>
    rw [List.foldl_cons, if_neg (by simp [h k (List.mem_cons_self k keys)])]
    exact ih (fun key hkey => h key (List.mem_cons_of_mem k hkey)) acc

theorem foldl_errors_one (formData : Obj JSStr) (bad : String) (msg : JSStr)
    (hbad : errorOf formData bad = msg) (hmsg : msg ≠ [])
    (hrest : ∀ key, key ≠ bad → errorOf formData key = []) (keys : List String) :
    ∀ acc : Obj JSStr, (acc = [] ∨ acc = [(bad, msg)]) →
      keys.foldl (fun newErrors key =>
        if errorOf formData key ≠ [] then Obj.set newErrors key (errorOf formData key)
        else newErrors) acc = if bad ∈ keys then [(bad, msg)] else acc := by
  induction keys with
  | nil => intro acc _; simp
  | cons k keys ih =>
    intro acc hacc
    rw [List.foldl_cons]
    by_cases hk : k = bad
    · subst hk
      have hset : Obj.set acc k msg = [(k, msg)] := by
        rcases hacc with h | h <;> simp [h, Obj.set]
      rw [hbad, if_pos hmsg, hset, ih _ (Or.inr rfl)]
      simp
    · rw [if_neg (by simp [hrest k hk]), ih acc hacc]
      simp [Ne.symm hk]

theorem get_foldl_set_true (keys : List String) :
    ∀ (acc : Obj Bool) (k : String), (k ∈ keys ∨ acc.get k = some true) →
      (keys.foldl (fun acc key => Obj.set acc key true) acc).get k = some true := by
  induction keys with
  | nil =>
    intro acc k h
    rcases h with h | h
    · simp at h
    · simpa using h
  | cons key keys ih =>
    intro acc k h
    rw [List.foldl_cons]
    apply ih
    by_cases hk : key = k
    · right
      rw [Obj.get_set, if_pos hk]
    · rcases h with h | h
      · left
        simp only [List.mem_cons] at h
        rcases h with h | h
        · exact absurd h.symm hk
        · exact h
      · right
        rw [Obj.get_set, if_neg hk]
        exact h

/-- The submit marks every key of `formData` touched. -/
theorem touchAll_get (formData : Obj JSStr) (k : String) (h : k ∈ formData.keys) :
    (touchAll formData).get k = some true :=
  get_foldl_set_true formData.keys [] k (Or.inl h)

/-! ## The registration submit -/

theorem handleSubmit_of_no_errors (s : RegState) (h : collectErrors s.formData = []) :
    handleSubmit s =
      ({ s with errors := [], touched := touchAll s.formData, isSubmitting := false },
        [RegEffect.simulatedApiCall s.formData]) := by
  simp [handleSubmit, handleSubmitBegin, handleSubmitEnd, h, Obj.keys]

theorem handleSubmit_of_errors (s : RegState) (h : collectErrors s.formData ≠ []) :
    handleSubmit s =
      ({ s with errors := collectErrors s.formData, touched := touchAll s.formData,
                isSubmitting := false }, []) := by
  simp [handleSubmit, handleSubmitBegin, h, Obj.keys]

theorem handleInputChange_isSubmitting (s : RegState) (name : String) (value : JSStr) :
    (handleInputChange s name value).isSubmitting = s.isSubmitting := by
  unfold handleInputChange
  by_cases h : s.touched.get name = some true <;> simp [h]

theorem handleSubmitBegin_isSubmitting (s : RegState) (s2 : RegState) (captured : Obj JSStr)
    (h : handleSubmitBegin s = (s2, some captured)) : s2.isSubmitting = true := by
  unfold handleSubmitBegin at h
  by_cases hk : (collectErrors s.formData).keys.length = 0
  · simp only [hk, if_true, Prod.mk.injEq] at h
    rw [← h.1]
  · simp [hk] at h

theorem RegSys.guarded_step (sys : RegSys) (e : RegEvent) (h : sys.Guarded) :
    (sys.step e).Guarded := by
  obtain ⟨hlen, hsub⟩ := h
  cases e with
  | change name value =>
    exact ⟨hlen, fun hne => by
      simp only [RegSys.step, handleInputChange_isSubmitting]
      exact hsub hne⟩
  | blur name value => exact ⟨hlen, fun hne => hsub hne⟩
  | click =>
    by_cases hs : sys.state.isSubmitting = true
    · simp only [RegSys.step, hs, if_true]
      exact ⟨hlen, hsub⟩
    · have hnil : sys.inFlight = [] := by
        by_contra hne
        exact hs (hsub hne)
      simp only [RegSys.step, hs, if_false]
      cases hb : handleSubmitBegin sys.state with
      | mk s2 pending =>
        cases pending with
        | none => exact ⟨by simp [hnil], fun hne => absurd hnil hne⟩
        | some captured =>
          exact ⟨by simp [hnil], fun _ => handleSubmitBegin_isSubmitting _ _ _ hb⟩
  | settle =>
    cases hf : sys.inFlight with
    | nil =>
      simp only [RegSys.step, hf]
      exact ⟨by simp [hf], fun hne => absurd hf hne⟩
    | cons captured rest =>
      have hrest : rest = [] := by
        rw [hf] at hlen
        simpa using hlen
      simp only [RegSys.step, hf]
      exact ⟨by simp [hrest], fun hne => absurd hrest hne⟩

theorem RegSys.guarded_run (events : List RegEvent) :
    ∀ sys : RegSys, sys.Guarded → (sys.run events).Guarded := by
  induction events with
  | nil => intro sys h; exact h
  | cons e events ih =>
    intro sys h
    exact ih (sys.step e) (RegSys.guarded_step sys e h)

/-- C2, as stated, fails: called on a filled form that is already submitting,
`handleSubmit` does not leave the state alone. It marks the fields touched,
performs the simulated API call again and ends with `isSubmitting` false. -/
theorem handleSubmit_not_guarded :
    (RegState.ofForm filledForm true).isSubmitting = true ∧
      (handleSubmit (RegState.ofForm filledForm true)).1.touched ≠
        (RegState.ofForm filledForm true).touched ∧
      (handleSubmit (RegState.ofForm filledForm true)).1.isSubmitting = false ∧
      (handleSubmit (RegState.ofForm filledForm true)).2 =
        [RegEffect.simulatedApiCall filledForm] := by
  decide

/-- C2, amended: the guard is the disabled submit button. In every state with
`isSubmitting` true a click on it changes nothing and starts nothing, and along
every sequence of events from the initial form at most one submission is
awaiting its timer. -/
theorem click_while_submitting_ignored :
    (∀ sys : RegSys, sys.state.isSubmitting = true → sys.step RegEvent.click = sys) ∧
      ∀ events : List RegEvent, (RegSys.initial.run events).inFlight.length ≤ 1 := by
  constructor
  · intro sys h
    simp [RegSys.step, h]
  · intro events
    exact (RegSys.guarded_run events RegSys.initial ⟨by decide, fun h => absurd rfl h⟩).1

theorem errorOf_eq_nil_of_valid (formData : Obj JSStr) (fn ln ph pw : JSStr)
    (hfn : formData.get "firstName" = some fn) (hfn2 : 2 ≤ (trim fn).length)
    (hln : formData.get "lastName" = some ln) (hln2 : 2 ≤ (trim ln).length)
    (hph : formData.get "phoneNumber" = some ph) (hph2 : phoneRegex.test (stripWs ph) = true)
    (hpw : formData.get "password" = some pw) (hpw8 : 8 ≤ pw.length)
    (hpwc : passwordRegex.test pw = true)
    (hcp : formData.get "confirmPassword" = some pw)
    (key : String)
    (hem : key = "email" → ∃ em, formData.get "email" = some em ∧ emailRegex.test em = true) :
    errorOf formData key = [] := by
  unfold errorOf
  by_cases hr : key = "referralCode"
  · simp [hr]
  rw [if_pos hr]
  cases hget : formData.get key with
  | none => rfl
  | some v =>
    show validateField formData key v = []
    by_cases h1 : key = "firstName"
    · subst h1
      rw [hfn] at hget
      cases hget
      rw [validateField_firstName, if_neg (by omega)]
      rfl
    by_cases h2 : key = "lastName"
    · subst h2
      rw [hln] at hget
      cases hget
      rw [validateField_lastName, if_neg (by omega)]
      rfl
    by_cases h3 : key = "email"
    · subst h3
      obtain ⟨em, hem, hem2⟩ := hem rfl
      rw [hem] at hget
      cases hget
      rw [validateField_email, hem2]
      rfl
    by_cases h4 : key = "phoneNumber"
    · subst h4
      rw [hph] at hget
      cases hget
      rw [validateField_phoneNumber, hph2]
      rfl
    by_cases h5 : key = "password"
    · subst h5
      rw [hpw] at hget
      cases hget
      rw [validateField_password, if_neg (by omega), hpwc]
      rfl
    by_cases h6 : key = "confirmPassword"
    · subst h6
      rw [hcp] at hget
      cases hget
      rw [validateField_confirmPassword, hpw, if_neg (by simp)]
      rfl
    exact validateField_default formData key v h1 h2 h3 h4 h5 h6

/-- The registration submit on a form every pattern of the code accepts: names
of trimmed length at least 2, email and phone matched by their patterns, a
password of length at least 8 matched by the composition pattern, the
confirmation equal to it. No error is recorded and the simulated API call is
performed. -/
theorem handleSubmit_all_valid (s : RegState) (fn ln em ph pw : JSStr)
    (hfn : s.formData.get "firstName" = some fn) (hfn2 : 2 ≤ (trim fn).length)
    (hln : s.formData.get "lastName" = some ln) (hln2 : 2 ≤ (trim ln).length)
    (hem : s.formData.get "email" = some em) (hem2 : emailRegex.test em = true)
    (hph : s.formData.get "phoneNumber" = some ph) (hph2 : phoneRegex.test (stripWs ph) = true)
    (hpw : s.formData.get "password" = some pw) (hpw8 : 8 ≤ pw.length)
    (hpwc : passwordRegex.test pw = true)
    (hcp : s.formData.get "confirmPassword" = some pw) :
    (handleSubmit s).1.errors = [] ∧
      (handleSubmit s).2 = [RegEffect.simulatedApiCall s.formData] ∧
      (handleSubmit s).1.isSubmitting = false := by
  have hnone : collectErrors s.formData = [] := by
    rw [collectErrors_eq]
    apply foldl_errors_none
    intro key _
    exact errorOf_eq_nil_of_valid s.formData fn ln ph pw hfn hfn2 hln hln2 hph hph2 hpw
      hpw8 hpwc hcp key (fun _ => ⟨em, hem, hem2⟩)
  rw [handleSubmit_of_no_errors s hnone]
  exact ⟨rfl, rfl, rfl⟩

/-- C8, evaluated on the code: the form `lineSeparatorForm` is not submitting,
has names of trimmed length at least 2, an email and a phone number matched by
their patterns, a password of length at least 8 holding a lowercase letter, an
uppercase letter and a digit, a confirmation equal to it and an empty referral
code; the submit nevertheless records the composition message for the
password and performs no simulated API call. -/
theorem handleSubmit_line_separator_password :
    (RegState.ofForm lineSeparatorForm false).isSubmitting = false ∧
    lineSeparatorForm.get "firstName" = some (js "Ada") ∧ 2 ≤ (trim (js "Ada")).length ∧
    lineSeparatorForm.get "lastName" = some (js "Obi") ∧ 2 ≤ (trim (js "Obi")).length ∧
    lineSeparatorForm.get "email" = some (js "ada@example.com") ∧
    emailRegex.test (js "ada@example.com") = true ∧
    lineSeparatorForm.get "phoneNumber" = some (js "+2348000000000") ∧
    phoneRegex.test (stripWs (js "+2348000000000")) = true ∧
    lineSeparatorForm.get "password" = some lineSeparatorPassword ∧
    8 ≤ lineSeparatorPassword.length ∧
    (∃ c ∈ lineSeparatorPassword, 97 ≤ c ∧ c ≤ 122) ∧
    (∃ c ∈ lineSeparatorPassword, 65 ≤ c ∧ c ≤ 90) ∧
    (∃ c ∈ lineSeparatorPassword, 48 ≤ c ∧ c ≤ 57) ∧
    lineSeparatorForm.get "confirmPassword" = some lineSeparatorPassword ∧
    lineSeparatorForm.get "referralCode" = some (js "") ∧
    (handleSubmit (RegState.ofForm lineSeparatorForm false)).1.errors =
      [("password", js "Must contain uppercase, lowercase, and number")] ∧
    (handleSubmit (RegState.ofForm lineSeparatorForm false)).2 = [] := by
  decide

/-- The registration submit with `not-an-email` as email and every other
validated field accepted by the patterns of the code: exactly one error is
recorded, the email message, no simulated API call is performed, every field
of the form is marked touched and `isSubmitting` ends false. -/
theorem handleSubmit_invalid_email (s : RegState) (fn ln ph pw : JSStr)
    (hem : s.formData.get "email" = some (js "not-an-email"))
    (hfn : s.formData.get "firstName" = some fn) (hfn2 : 2 ≤ (trim fn).length)
    (hln : s.formData.get "lastName" = some ln) (hln2 : 2 ≤ (trim ln).length)
    (hph : s.formData.get "phoneNumber" = some ph) (hph2 : phoneRegex.test (stripWs ph) = true)
    (hpw : s.formData.get "password" = some pw) (hpw8 : 8 ≤ pw.length)
    (hpwc : passwordRegex.test pw = true)
    (hcp : s.formData.get "confirmPassword" = some pw) :
    (handleSubmit s).1.errors = [("email", js "Please enter a valid email address")] ∧
      (handleSubmit s).2 = [] ∧
      (∀ k ∈ s.formData.keys, (handleSubmit s).1.touched.get k = some true) ∧
      (handleSubmit s).1.isSubmitting = false := by
  have hbad : errorOf s.formData "email" = js "Please enter a valid email address" := by
    unfold errorOf
    rw [if_pos (by decide), hem]
    show validateField s.formData "email" (js "not-an-email") = _
    rw [validateField_email]
    decide
  have hone : collectErrors s.formData = [("email", js "Please enter a valid email address")] := by
    rw [collectErrors_eq, foldl_errors_one s.formData "email" _ hbad (by decide)
      (fun key hkey => errorOf_eq_nil_of_valid s.formData fn ln ph pw hfn hfn2 hln hln2 hph
        hph2 hpw hpw8 hpwc hcp key (fun h => absurd h hkey)) s.formData.keys [] (Or.inl rfl),
      if_pos (Obj.mem_keys_of_get _ _ _ hem)]
  rw [handleSubmit_of_errors s (by rw [hone]; simp)]
  exact ⟨hone, rfl, fun k hk => touchAll_get s.formData k hk, rfl⟩

theorem handleSubmit_invalid_email_witness :
    (handleSubmit (RegState.ofForm badEmailForm false)).1.errors =
        [("email", js "Please enter a valid email address")] ∧
      (handleSubmit (RegState.ofForm badEmailForm false)).2 = [] ∧
      (∀ k ∈ (RegState.ofForm badEmailForm false).formData.keys,
        (handleSubmit (RegState.ofForm badEmailForm false)).1.touched.get k = some true) ∧
      (handleSubmit (RegState.ofForm badEmailForm false)).1.isSubmitting = false :=
  handleSubmit_invalid_email (RegState.ofForm badEmailForm false) (js "Ada") (js "Obi")
    (js "+2348000000000") (js "Passw0rdX") (by decide) (by decide) (by decide) (by decide)
    (by decide) (by decide) (by decide) (by decide) (by decide) (by decide) (by decide)

/-- C9, evaluated on the code: the form `badEmailLineSeparatorForm` has
`not-an-email` as email, names of trimmed length at least 2, a phone number
matched by its pattern, a password of length at least 8 holding a lowercase
letter, an uppercase letter and a digit, and a confirmation equal to it; the
submit records two errors, the email message and the composition message for
the password, where the email one alone is due. It performs no simulated API
call, marks every field touched and ends with `isSubmitting` false. -/
theorem handleSubmit_invalid_email_line_separator :
    badEmailLineSeparatorForm.get "email" = some (js "not-an-email") ∧
    badEmailLineSeparatorForm.get "firstName" = some (js "Ada") ∧
    2 ≤ (trim (js "Ada")).length ∧
    badEmailLineSeparatorForm.get "lastName" = some (js "Obi") ∧
    2 ≤ (trim (js "Obi")).length ∧
    badEmailLineSeparatorForm.get "phoneNumber" = some (js "+2348000000000") ∧
    phoneRegex.test (stripWs (js "+2348000000000")) = true ∧
    badEmailLineSeparatorForm.get "password" = some lineSeparatorPassword ∧
    8 ≤ lineSeparatorPassword.length ∧
    (∃ c ∈ lineSeparatorPassword, 97 ≤ c ∧ c ≤ 122) ∧
    (∃ c ∈ lineSeparatorPassword, 65 ≤ c ∧ c ≤ 90) ∧
    (∃ c ∈ lineSeparatorPassword, 48 ≤ c ∧ c ≤ 57) ∧
    badEmailLineSeparatorForm.get "confirmPassword" = some lineSeparatorPassword ∧
    (handleSubmit (RegState.ofForm badEmailLineSeparatorForm false)).1.errors =
      [("email", js "Please enter a valid email address"),
       ("password", js "Must contain uppercase, lowercase, and number")] ∧
    (handleSubmit (RegState.ofForm badEmailLineSeparatorForm false)).2 = [] ∧
    (∀ k ∈ badEmailLineSeparatorForm.keys,
      (handleSubmit (RegState.ofForm badEmailLineSeparatorForm false)).1.touched.get k =
        some true) ∧
    (handleSubmit (RegState.ofForm badEmailLineSeparatorForm false)).1.isSubmitting = false := by
  decide

/-! ## The sign-in submit -/

theorem validateForm_of_filled (s : LoginState) (he : s.email ≠ []) (hp : s.password ≠ []) :
    validateForm s = ({ s with errors := [] }, true) := by
  have he' : s.email.isEmpty = false := by
    cases h : s.email with
    | nil => exact absurd h he
    | cons a l => rfl
  have hp' : s.password.isEmpty = false := by
    cases h : s.password with
    | nil => exact absurd h hp
    | cons a l => rfl
  simp [validateForm, he', hp', Obj.keys]

theorem validateForm_of_empty (s : LoginState) (he : s.email = []) (hp : s.password = []) :
    validateForm s = ({ s with errors := requiredErrors }, false) := by
  simp [validateForm, he, hp, Obj.keys, Obj.set, requiredErrors]

theorem validateForm_true (s : LoginState) (h : (validateForm s).2 = true) :
    s.email ≠ [] ∧ s.password ≠ [] := by
  obtain ⟨sp, kl, email, password, errors⟩ := s
  cases email <;> cases password <;> simp [validateForm, Obj.keys, Obj.set] at h ⊢

/-- C1, as stated, fails twice. After a submit of the empty form has shown the
two "required" errors and both fields have been filled in, a response
`errors: [{message: "Invalid credentials"}]` leaves those two field errors in
the mapping next to the form-level one; and a first message that is the empty
string gives the fallback text, not the message. -/
theorem loginSubmit_app_error_counterexample :
    (LoginState.ofFields (js "ada") (js "secret") requiredErrors).email ≠ [] ∧
    (LoginState.ofFields (js "ada") (js "secret") requiredErrors).password ≠ [] ∧
    (Login.handleSubmit (LoginState.ofFields (js "ada") (js "secret") requiredErrors)
        (errorResponse (js "Invalid credentials"))).1.errors =
      [("email", .str (js "Email/Username is required")),
       ("password", .str (js "Password is required")),
       ("form", .str (js "Invalid credentials"))] ∧
    (Login.handleSubmit (LoginState.ofFields (js "ada") (js "secret") [])
        (errorResponse (js ""))).1.errors =
      [("form", .str (js "Failed to log in. Please try again."))] :=
  ⟨by decide, by decide, rfl, rfl⟩

/-- C1, amended: with identifier and password filled in and a response whose
`errors` list starts with an entry of message `m`, the form-level error after
the submit is `m` when `m` is not empty and the fallback text when it is; one
request is issued; and the mapping has no `email` (no `password`) entry when
the mapping of the state had none. -/
theorem loginSubmit_app_error (s : LoginState) (props fprops : List (String × JSVal))
    (rest : List JSVal) (m : JSStr) (he : s.email ≠ []) (hp : s.password ≠ [])
    (herrors : Obj.get props "errors" = some (.arr (.obj fprops :: rest)))
    (hmessage : Obj.get fprops "message" = some (.str m)) :
    (m ≠ [] → (Login.handleSubmit s (.body (.obj props))).1.errors.get "form" =
        some (.str m)) ∧
      (m = [] → (Login.handleSubmit s (.body (.obj props))).1.errors.get "form" =
        some (.str (js "Failed to log in. Please try again."))) ∧
      (Login.handleSubmit s (.body (.obj props))).2 =
        [{ identifier := s.email, password := s.password }] ∧
      (s.errors.get "email" = none →
        (Login.handleSubmit s (.body (.obj props))).1.errors.get "email" = none) ∧
      (s.errors.get "password" = none →
        (Login.handleSubmit s (.body (.obj props))).1.errors.get "password" = none) := by
  have hres : onResult s.errors (.obj props) =
      some (Obj.set s.errors "form"
        (if m.isEmpty then .str (js "Failed to log in. Please try again.") else .str m)) := by
    cases m <;>
      simp [onResult, JSVal.prop, herrors, JSVal.truthy, JSVal.first, JSVal.optProp, hmessage]
  have hrun : Login.handleSubmit s (.body (.obj props)) =
      ({ s with errors := (Obj.set s.errors "form"
          (if m.isEmpty then .str (js "Failed to log in. Please try again.") else .str m)) },
        [{ identifier := s.email, password := s.password }]) := by
    simp [Login.handleSubmit, validateForm_of_filled s he hp, hres]
  rw [hrun]
  refine ⟨?_, ?_, rfl, ?_, ?_⟩
  · intro hm
    cases m with
    | nil => exact absurd rfl hm
    | cons a l => simp [Obj.get_set]
  · intro hm
    simp [Obj.get_set, hm]
  · intro h
    simp only [Obj.get_set]
    rw [if_neg (by decide)]
    exact h
  · intro h
    simp only [Obj.get_set]
    rw [if_neg (by decide)]
    exact h

theorem loginSubmit_app_error_witness :
    (Login.handleSubmit (LoginState.ofFields (js "ada") (js "secret") [])
        (errorResponse (js "Invalid credentials"))).1.errors.get "form" =
      some (.str (js "Invalid credentials")) :=
  (loginSubmit_app_error (LoginState.ofFields (js "ada") (js "secret") [])
    [("errors", .arr [.obj [("message", .str (js "Invalid credentials"))]])]
    [("message", .str (js "Invalid credentials"))] [] (js "Invalid credentials")
    (by decide) (by decide) rfl rfl).1 (by decide)

/-- C10: a submit with identifier and password both empty sets exactly the two
"required" errors, `validateForm` returns false and no request is issued; and
in any state a request is issued only when both fields are non-empty. -/
theorem loginSubmit_empty (s : LoginState) (net : FetchOutcome)
    (he : s.email = []) (hp : s.password = []) :
    (Login.handleSubmit s net).1.errors =
        [("email", .str (js "Email/Username is required")),
         ("password", .str (js "Password is required"))] ∧
      (validateForm s).2 = false ∧
      (Login.handleSubmit s net).2 = [] ∧
      ∀ (s' : LoginState) (net' : FetchOutcome),
        (Login.handleSubmit s' net').2 ≠ [] → s'.email ≠ [] ∧ s'.password ≠ [] := by
  refine ⟨?_, ?_, ?_, ?_⟩
  · simp [Login.handleSubmit, validateForm_of_empty s he hp, requiredErrors]
  · rw [validateForm_of_empty s he hp]
  · simp [Login.handleSubmit, validateForm_of_empty s he hp]
  · intro s' net' h
    apply validateForm_true
    cases hv : (validateForm s').2 with
    | true => rfl
    | false =>
      exfalso
      apply h
      have : validateForm s' = ((validateForm s').1, false) := by rw [← hv]
      simp only [Login.handleSubmit]
      rw [this]
      rfl

theorem loginSubmit_empty_witness :
    (Login.handleSubmit (LoginState.ofFields [] [] []) FetchOutcome.fetchRejects).1.errors =
        [("email", .str (js "Email/Username is required")),
         ("password", .str (js "Password is required"))] ∧
      (validateForm (LoginState.ofFields [] [] [])).2 = false ∧
      (Login.handleSubmit (LoginState.ofFields [] [] []) FetchOutcome.fetchRejects).2 = [] :=
  have h := loginSubmit_empty (LoginState.ofFields [] [] []) FetchOutcome.fetchRejects
    rfl rfl
  ⟨h.1, h.2.1, h.2.2.1⟩

/-! ## The sign-in submit on a transport failure -/

/-- C11: with identifier and password filled in, a request that rejects, or a
body that cannot be parsed, leaves the connectivity message as form-level
error, whatever the mapping held before; the request was issued. -/
theorem loginSubmit_transport_failure (s : LoginState) (net : FetchOutcome)
    (he : s.email ≠ []) (hp : s.password ≠ [])
    (hnet : net = FetchOutcome.fetchRejects ∨ net = FetchOutcome.jsonRejects) :
    (Login.handleSubmit s net).1.errors.get "form" =
        some (.str (js "Network error occurred. Please check your connection and try again.")) ∧
      (Login.handleSubmit s net).2 = [{ identifier := s.email, password := s.password }] := by
  have hrun : Login.handleSubmit s net =
      ({ s with errors := onCatch s.errors },
        [{ identifier := s.email, password := s.password }]) := by
    rcases hnet with h | h <;> simp [Login.handleSubmit, validateForm_of_filled s he hp, h]
  rw [hrun]
  exact ⟨by simp [onCatch, Obj.get_set], rfl⟩

theorem loginSubmit_transport_failure_witness :
    (Login.handleSubmit
        (LoginState.ofFields (js "ada") (js "secret") [("form", .str (js "Invalid credentials"))])
        FetchOutcome.fetchRejects).1.errors.get "form" =
      some (.str (js "Network error occurred. Please check your connection and try again.")) :=
  (loginSubmit_transport_failure
    (LoginState.ofFields (js "ada") (js "secret") [("form", .str (js "Invalid credentials"))])
    FetchOutcome.fetchRejects (by decide) (by decide) (Or.inl rfl)).1

/-! ## Frame of the registration handlers -/

theorem Obj.mem_keys_set {α : Type} (o : Obj α) (k k' : String) (v : α)
    (h : k ∈ o.keys) : k ∈ (Obj.set o k' v).keys := by
  obtain ⟨w, hw⟩ := Obj.get_isSome_of_mem_keys o k h
  by_cases hk : k' = k
  · exact Obj.mem_keys_of_get _ k v (by rw [Obj.get_set, if_pos hk])
  · exact Obj.mem_keys_of_get _ k w (by rw [Obj.get_set, if_neg hk, hw])

theorem handleInputChange_formData (s : RegState) (name : String) (value : JSStr) :
    (handleInputChange s name value).formData = Obj.set s.formData name value := by
  unfold handleInputChange
  by_cases h : s.touched.get name = some true <;> simp [h]

theorem handleInputChange_touched (s : RegState) (name : String) (value : JSStr) :
    (handleInputChange s name value).touched = s.touched := by
  unfold handleInputChange
  by_cases h : s.touched.get name = some true <;> simp [h]

theorem handleInputChange_errors_touched (s : RegState) (name : String) (value : JSStr)
    (h : s.touched.get name = some true) :
    (handleInputChange s name value).errors =
      Obj.set s.errors name (validateField s.formData name value) := by
  simp [handleInputChange, h]

theorem handleInputChange_errors_untouched (s : RegState) (name : String) (value : JSStr)
    (h : s.touched.get name ≠ some true) :
    (handleInputChange s name value).errors = s.errors := by
  simp [handleInputChange, h]

theorem handleSubmitBegin_formData (s : RegState) :
    (handleSubmitBegin s).1.formData = s.formData := by
  unfold handleSubmitBegin
  by_cases h : (collectErrors s.formData).keys.length = 0 <;> simp [h]

theorem handleSubmitBegin_touched (s : RegState) :
    (handleSubmitBegin s).1.touched = touchAll s.formData := by
  unfold handleSubmitBegin
  by_cases h : (collectErrors s.formData).keys.length = 0 <;> simp [h]

theorem handleSubmitBegin_errors (s : RegState) :
    (handleSubmitBegin s).1.errors = collectErrors s.formData := by
  unfold handleSubmitBegin
  by_cases h : (collectErrors s.formData).keys.length = 0 <;> simp [h]

theorem RegSys.step_click (sys : RegSys) (h : sys.state.isSubmitting = false) :
    (sys.step RegEvent.click).state = (handleSubmitBegin sys.state).1 := by
  simp only [RegSys.step, h]
  cases hb : handleSubmitBegin sys.state with
  | mk s2 pending => cases pending <;> simp

/-- The validator reads `formData` only for the sibling password. -/
theorem validateField_congr (formData formData' : Obj JSStr) (name : String) (v : JSStr)
    (h : name = "confirmPassword" → formData.get "password" = formData'.get "password") :
    validateField formData name v = validateField formData' name v := by
  by_cases hc : name = "confirmPassword"
  · subst hc
    rw [validateField_confirmPassword, validateField_confirmPassword, h rfl]
  · simp [validateField, hc]

/-- Every event keeps the keys of `formData`. -/
theorem RegSys.step_keys (sys : RegSys) (e : RegEvent) (k : String)
    (h : k ∈ sys.state.formData.keys) : k ∈ (sys.step e).state.formData.keys := by
  cases e with
  | change name value =>
    simp only [RegSys.step, handleInputChange_formData]
    exact Obj.mem_keys_set _ _ _ _ h
  | blur name value => exact h
  | click =>
    by_cases hs : sys.state.isSubmitting = true
    · simpa [RegSys.step, hs] using h
    · rw [RegSys.step_click sys (by simpa using hs), handleSubmitBegin_formData]
      exact h
  | settle =>
    cases hf : sys.inFlight with
    | nil => simpa [RegSys.step, hf] using h
    | cons captured rest => simpa [RegSys.step, hf, handleSubmitEnd] using h

theorem RegSys.step_touched (sys : RegSys) (e : RegEvent) (k : String)
    (hk : k ∈ sys.state.formData.keys) (h : sys.state.touched.get k = some true) :
    (sys.step e).state.touched.get k = some true := by
  cases e with
  | change name value =>
    simp only [RegSys.step, handleInputChange_touched]
    exact h
  | blur name value =>
    simp only [RegSys.step, handleBlur, Obj.get_set]
    by_cases hn : name = k
    · rw [if_pos hn]
    · rw [if_neg hn]
      exact h
  | click =>
    by_cases hs : sys.state.isSubmitting = true
    · simpa [RegSys.step, hs] using h
    · rw [RegSys.step_click sys (by simpa using hs), handleSubmitBegin_touched]
      exact touchAll_get _ k hk
  | settle =>
    cases hf : sys.inFlight with
    | nil => simpa [RegSys.step, hf] using h
    | cons captured rest => simpa [RegSys.step, hf, handleSubmitEnd] using h

theorem RegSys.run_touched (events : List RegEvent) :
    ∀ (sys : RegSys) (k : String), k ∈ sys.state.formData.keys →
      sys.state.touched.get k = some true → (sys.run events).state.touched.get k = some true := by
  induction events with
  | nil => intro sys k _ h; exact h
  | cons e events ih =>
    intro sys k hk h
    exact ih (sys.step e) k (RegSys.step_keys sys e k hk) (RegSys.step_touched sys e k hk h)

theorem foldl_set_true_keys (keys : List String) :
    ∀ (acc : Obj Bool) (k : String),
      (keys.foldl (fun acc key => Obj.set acc key true) acc).get k = some true →
      k ∈ keys ∨ acc.get k = some true := by
  induction keys with
  | nil => intro acc k h; exact Or.inr h
  | cons key keys ih =>
    intro acc k h
    rw [List.foldl_cons] at h
    rcases ih _ k h with h1 | h1
    · exact Or.inl (List.mem_cons_of_mem key h1)
    · rw [Obj.get_set] at h1
      by_cases hk : key = k
      · exact Or.inl (by rw [hk]; exact List.mem_cons_self k keys)
      · rw [if_neg hk] at h1
        exact Or.inr h1

theorem RegSys.faithful_append (before after : List RegEvent) :
    ∀ sys : RegSys, sys.faithful (before ++ after) =
      (sys.faithful before && (sys.run before).faithful after) := by
  induction before with
  | nil => intro sys; simp [RegSys.faithful, RegSys.run]
  | cons e before ih =>
    intro sys
    have hrun : sys.run (e :: before) = (sys.step e).run before := rfl
    rw [List.cons_append, RegSys.faithful, RegSys.faithful, ih, hrun, Bool.and_assoc]

/-- Along the events the rendered form can produce, only keys of `formData` are
ever touched. -/
theorem RegSys.touched_keys_run (events : List RegEvent) :
    ∀ sys : RegSys, (∀ k, sys.state.touched.get k = some true → k ∈ sys.state.formData.keys) →
      sys.faithful events = true →
      ∀ k, (sys.run events).state.touched.get k = some true →
        k ∈ (sys.run events).state.formData.keys := by
  induction events with
  | nil => intro sys h _; exact h
  | cons e events ih =>
    intro sys h hreal
    simp only [RegSys.faithful, Bool.and_eq_true] at hreal
    refine ih (sys.step e) ?_ hreal.2
    intro k hk
    cases e with
    | change name value =>
      simp only [RegSys.step, handleInputChange_touched] at hk
      exact RegSys.step_keys sys _ k (h k hk)
    | blur name value =>
      have hval : sys.state.formData.get name = some value := by
        simpa [RegSys.canOccur] using hreal.1
      simp only [RegSys.step, handleBlur, Obj.get_set] at hk ⊢
      by_cases hn : name = k
      · rw [← hn]
        exact Obj.mem_keys_of_get _ _ _ hval
      · rw [if_neg hn] at hk
        exact h k hk
    | click =>
      by_cases hs : sys.state.isSubmitting = true
      · have hsame : sys.step RegEvent.click = sys := by simp [RegSys.step, hs]
        rw [hsame] at hk ⊢
        exact h k hk
      · have hst := RegSys.step_click sys (by simpa using hs)
        rw [hst, handleSubmitBegin_touched] at hk
        rw [hst, handleSubmitBegin_formData]
        rcases foldl_set_true_keys _ [] k hk with h1 | h1
        · exact h1
        · exact absurd h1 (by simp [Obj.get])
    | settle =>
      cases hfl : sys.inFlight with
      | nil =>
        have hsame : sys.step RegEvent.settle = sys := by simp [RegSys.step, hfl]
        rw [hsame] at hk ⊢
        exact h k hk
      | cons captured rest =>
        simp only [RegSys.step, hfl, handleSubmitEnd] at hk ⊢
        exact h k hk

/-- C12: a field of the form, that is a key of `formData`, that is touched
before an event (change, blur, click on submit, timer of a pending submit) is
touched after it, and so is it after the whole of `handleSubmit`; hence along
every sequence of events from the initial form a field once touched stays
touched, and along the events the rendered form can produce this holds of
every name. -/
theorem touched_monotone :
    (∀ (sys : RegSys) (e : RegEvent) (k : String), k ∈ sys.state.formData.keys →
        sys.state.touched.get k = some true → (sys.step e).state.touched.get k = some true) ∧
      (∀ (s : RegState) (k : String), k ∈ s.formData.keys → s.touched.get k = some true →
        (handleSubmit s).1.touched.get k = some true) ∧
      (∀ (before after : List RegEvent) (k : String),
        k ∈ (RegSys.initial.run before).state.formData.keys →
        (RegSys.initial.run before).state.touched.get k = some true →
        (RegSys.initial.run (before ++ after)).state.touched.get k = some true) ∧
      ∀ (before after : List RegEvent) (k : String),
        RegSys.initial.faithful (before ++ after) = true →
        (RegSys.initial.run before).state.touched.get k = some true →
        (RegSys.initial.run (before ++ after)).state.touched.get k = some true := by
  have hsplit : ∀ before after : List RegEvent, RegSys.initial.run (before ++ after) =
      (RegSys.initial.run before).run after := by
    intro before after
    simp [RegSys.run, List.foldl_append]
  refine ⟨RegSys.step_touched, ?_, ?_, ?_⟩
  · intro s k hk _
    have ht : (handleSubmit s).1.touched = touchAll s.formData := by
      by_cases h : collectErrors s.formData = []
      · rw [handleSubmit_of_no_errors s h]
      · rw [handleSubmit_of_errors s h]
    rw [ht]
    exact touchAll_get _ k hk
  · intro before after k hk h
    rw [hsplit]
    exact RegSys.run_touched after _ k hk h
  · intro before after k hreal h
    rw [RegSys.faithful_append, Bool.and_eq_true] at hreal
    have hk : k ∈ (RegSys.initial.run before).state.formData.keys :=
      RegSys.touched_keys_run before RegSys.initial
        (fun k hk => absurd (show (none : Option Bool) = some true from hk) (by simp))
        hreal.1 k h
    rw [hsplit]
    exact RegSys.run_touched after _ k hk h

/-- C14: `handleInputChange` on field `f` with value `v` sets `formData[f]` to
`v` and keeps every other value; when `f` is touched it sets `errors[f]` to
`validateField(f, v)`, the same against the old and the new `formData`, and
keeps every other entry; when `f` is not touched it keeps `errors` as it is, an
unset entry of `f` included; `touched` and `isSubmitting` are kept. -/
theorem handleInputChange_frame (s : RegState) (f : String) (v : JSStr) :
    (handleInputChange s f v).formData.get f = some v ∧
      (∀ g : String, g ≠ f → (handleInputChange s f v).formData.get g = s.formData.get g) ∧
      (s.touched.get f = some true →
        (handleInputChange s f v).errors.get f = some (validateField s.formData f v) ∧
        validateField s.formData f v = validateField (handleInputChange s f v).formData f v ∧
        ∀ g : String, g ≠ f → (handleInputChange s f v).errors.get g = s.errors.get g) ∧
      (s.touched.get f ≠ some true →
        (handleInputChange s f v).errors = s.errors ∧
        (s.errors.get f = none → (handleInputChange s f v).errors.get f = none)) ∧
      (handleInputChange s f v).touched = s.touched ∧
      (handleInputChange s f v).isSubmitting = s.isSubmitting ∧
      (handleInputChange s f v).showPassword = s.showPassword ∧
      (handleInputChange s f v).showConfirmPassword = s.showConfirmPassword := by
  refine ⟨?_, ?_, ?_, ?_, handleInputChange_touched s f v,
    handleInputChange_isSubmitting s f v, ?_, ?_⟩
  · rw [handleInputChange_formData, Obj.get_set, if_pos rfl]
  · intro g hg
    rw [handleInputChange_formData, Obj.get_set, if_neg (Ne.symm hg)]
  · intro ht
    rw [handleInputChange_errors_touched s f v ht, handleInputChange_formData]
    refine ⟨by rw [Obj.get_set, if_pos rfl], ?_, ?_⟩
    · apply validateField_congr
      intro hf
      rw [Obj.get_set, if_neg (by rw [hf]; decide)]
    · intro g hg
      rw [Obj.get_set, if_neg (Ne.symm hg)]
  · intro ht
    rw [handleInputChange_errors_untouched s f v ht]
    exact ⟨rfl, fun h => h⟩
  · unfold handleInputChange
    by_cases h : s.touched.get f = some true <;> simp [h]
  · unfold handleInputChange
    by_cases h : s.touched.get f = some true <;> simp [h]

/-! ## Runs of one character class -/

theorem mem_run_set {neg : Bool} {rs : List (Nat × Nat)} {n : Nat} {s u : JSStr} :
    u ∈ (RE.set neg rs).run n s ↔ ∃ c, s = c :: u ∧ (inRanges rs c != neg) = true := by
  constructor
  · exact run_set_mem
  · rintro ⟨c, rfl, hc⟩
    rw [RE.run]
    simp [hc]

theorem mem_exactly_cls (f : JSStr → List JSStr) (ok : Nat → Prop)
    (hf : ∀ s u, u ∈ f s ↔ ∃ c, s = c :: u ∧ ok c) :
    ∀ (k : Nat) (s u : JSStr),
      u ∈ exactly f k s ↔ ∃ p, s = p ++ u ∧ p.length = k ∧ ∀ c ∈ p, ok c := by
  intro k
  induction k with
  | zero =>
    intro s u
    simp only [exactly, List.mem_singleton]
    constructor
    · intro h
      exact ⟨[], by simp [h], rfl, by simp⟩
    · rintro ⟨p, hs, hp, _⟩
      have : p = [] := List.length_eq_zero.mp hp
      simp [hs, this]
  | succ k ih =>
    intro s u
    simp only [exactly, List.mem_flatMap]
    constructor
    · rintro ⟨t, ht, hu⟩
      obtain ⟨c, hs, hc⟩ := (hf s t).mp ht
      obtain ⟨p, htp, hlen, hp⟩ := (ih t u).mp hu
      refine ⟨c :: p, by simp [hs, htp], by simp [hlen], ?_⟩
      intro x hx
      rcases List.mem_cons.mp hx with h | h
      · rw [h]; exact hc
      · exact hp x h
    · rintro ⟨p, hs, hlen, hp⟩
      cases p with
      | nil => simp at hlen
      | cons c p =>
        refine ⟨p ++ u, (hf s (p ++ u)).mpr ⟨c, by simp [hs], hp c (List.mem_cons_self c p)⟩, ?_⟩
        exact (ih (p ++ u) u).mpr ⟨p, rfl, by simpa using hlen,
          fun x hx => hp x (List.mem_cons_of_mem c hx)⟩

theorem mem_iterate_cls (f : JSStr → List JSStr) (ok : Nat → Prop)
    (hf : ∀ s u, u ∈ f s ↔ ∃ c, s = c :: u ∧ ok c) :
    ∀ (k : Nat) (s u : JSStr),
      u ∈ iterate f k s ↔ ∃ p, s = p ++ u ∧ p.length ≤ k ∧ ∀ c ∈ p, ok c := by
  intro k
  induction k with
  | zero =>
    intro s u
    simp only [iterate, List.mem_singleton]
    constructor
    · intro h
      exact ⟨[], by simp [h], by simp, by simp⟩
    · rintro ⟨p, hs, hp, _⟩
      have : p = [] := List.length_eq_zero.mp (Nat.le_zero.mp hp)
      simp [hs, this]
  | succ k ih =>
    intro s u
    simp only [iterate, List.mem_cons, List.mem_flatMap, List.mem_filter]
    constructor
    · rintro (h | ⟨t, ⟨ht, _⟩, hu⟩)
      · exact ⟨[], by simp [h], by simp, by simp⟩
      · obtain ⟨c, hs, hc⟩ := (hf s t).mp ht
        obtain ⟨p, htp, hlen, hp⟩ := (ih t u).mp hu
        refine ⟨c :: p, by simp [hs, htp], by simpa using hlen, ?_⟩
        intro x hx
        rcases List.mem_cons.mp hx with h | h
        · rw [h]; exact hc
        · exact hp x h
    · rintro ⟨p, hs, hlen, hp⟩
      cases p with
      | nil => left; simp [hs]
      | cons c p =>
        right
        refine ⟨p ++ u, ⟨(hf s (p ++ u)).mpr ⟨c, by simp [hs], hp c (List.mem_cons_self c p)⟩,
          by simp [hs]⟩, ?_⟩
        exact (ih (p ++ u) u).mpr ⟨p, rfl, by simpa using hlen,
          fun x hx => hp x (List.mem_cons_of_mem c hx)⟩

/-- What `[class]{lo,hi}` can leave: the input minus a run of the class of a
length between `lo` and `hi`. -/
theorem mem_run_rep_set {neg : Bool} {rs : List (Nat × Nat)} {lo hi n : Nat} {s u : JSStr}
    (hle : lo ≤ hi) :
    u ∈ (RE.rep (.set neg rs) lo hi).run n s ↔
      ∃ p, s = p ++ u ∧ lo ≤ p.length ∧ p.length ≤ hi ∧
        ∀ c ∈ p, (inRanges rs c != neg) = true := by
  rw [RE.run]
  simp only [List.mem_flatMap]
  have hf : ∀ s u, u ∈ (fun t => (RE.set neg rs).run n t) s ↔
      ∃ c, s = c :: u ∧ (fun c => (inRanges rs c != neg) = true) c := fun s u => mem_run_set
  constructor
  · rintro ⟨t, ht, hu⟩
    obtain ⟨p1, hs, hlen1, hp1⟩ := (mem_exactly_cls _ _ hf lo s t).mp ht
    obtain ⟨p2, ht2, hlen2, hp2⟩ := (mem_iterate_cls _ _ hf (hi - lo) t u).mp hu
    refine ⟨p1 ++ p2, by simp [hs, ht2], by simp; omega, by simp; omega, ?_⟩
    intro c hc
    rcases List.mem_append.mp hc with h | h
    · exact hp1 c h
    · exact hp2 c h
  · rintro ⟨p, hs, hlo, hhi, hp⟩
    refine ⟨p.drop lo ++ u, (mem_exactly_cls _ _ hf lo s _).mpr ⟨p.take lo, ?_, ?_, ?_⟩,
      (mem_iterate_cls _ _ hf (hi - lo) _ u).mpr ⟨p.drop lo, rfl, ?_, ?_⟩⟩
    · rw [hs, ← List.append_assoc, List.take_append_drop]
    · simp; omega
    · exact fun c hc => hp c (List.mem_of_mem_take hc)
    · simp; omega
    · exact fun c hc => hp c (List.mem_of_mem_drop hc)

/-- What `[class]+` can leave: the input minus a non-empty run of the class. -/
theorem mem_run_plus_set {neg : Bool} {rs : List (Nat × Nat)} {n : Nat} {s u : JSStr} :
    u ∈ (RE.plus (.set neg rs)).run n s ↔
      ∃ p, s = p ++ u ∧ p ≠ [] ∧ ∀ c ∈ p, (inRanges rs c != neg) = true := by
  rw [RE.run]
  simp only [List.mem_flatMap, iterateAll]
  have hf : ∀ s u, u ∈ (fun t => (RE.set neg rs).run n t) s ↔
      ∃ c, s = c :: u ∧ (fun c => (inRanges rs c != neg) = true) c := fun s u => mem_run_set
  constructor
  · rintro ⟨t, ht, hu⟩
    obtain ⟨c, hs, hc⟩ := mem_run_set.mp ht
    obtain ⟨p, htp, _, hp⟩ := (mem_iterate_cls _ _ hf t.length t u).mp hu
    refine ⟨c :: p, by simp [hs, htp], by simp, ?_⟩
    intro x hx
    rcases List.mem_cons.mp hx with h | h
    · rw [h]; exact hc
    · exact hp x h
  · rintro ⟨p, hs, hne, hp⟩
    cases p with
    | nil => exact absurd rfl hne
    | cons c p =>
      refine ⟨p ++ u, mem_run_set.mpr ⟨c, by simp [hs], hp c (List.mem_cons_self c p)⟩, ?_⟩
      exact (mem_iterate_cls _ _ hf _ (p ++ u) u).mpr ⟨p, rfl, by simp,
        fun x hx => hp x (List.mem_cons_of_mem c hx)⟩

theorem mem_run_seq {a b : RE} {n : Nat} {s u : JSStr} :
    u ∈ (RE.seq a b).run n s ↔ ∃ t, t ∈ a.run n s ∧ u ∈ b.run n t := by
  rw [run_seq, List.mem_flatMap]

theorem mem_run_eos {n : Nat} {s u : JSStr} : u ∈ RE.eos.run n s ↔ s = [] ∧ u = [] := by
  rw [RE.run]
  cases s <;> simp

theorem mem_run_opt {a : RE} {n : Nat} {s u : JSStr} :
    u ∈ (RE.opt a).run n s ↔ u ∈ a.run n s ∨ u = s := by
  rw [RE.run, List.mem_append, List.mem_singleton]

/-- A pattern that starts with `^` matches only at the start of the input. -/
theorem test_bos (a : RE) (w : JSStr) :
    (RE.seq .bos a).test w = true ↔ ∃ u, u ∈ a.run w.length w := by
  simp only [RE.test, List.any_eq_true, List.mem_tails, Bool.not_eq_true']
  constructor
  · rintro ⟨t, ht, hrun⟩
    obtain ⟨u, hu⟩ := List.exists_mem_of_ne_nil _ (by simpa [List.isEmpty_iff] using hrun)
    obtain ⟨t', ht', hu'⟩ := mem_run_seq.mp hu
    rw [RE.run] at ht'
    by_cases hlen : t.length = w.length
    · simp only [hlen, if_true, List.mem_singleton] at ht'
      have htw : t = w := ht.eq_of_length hlen
      subst ht'
      rw [htw] at hu'
      exact ⟨u, hu'⟩
    · simp [hlen] at ht'
  · rintro ⟨u, hu⟩
    refine ⟨w, List.suffix_refl w, ?_⟩
    have hmem : u ∈ (RE.seq .bos a).run w.length w :=
      mem_run_seq.mpr ⟨w, by rw [RE.run]; simp, hu⟩
    cases hrun : (RE.seq .bos a).run w.length w with
    | nil => rw [hrun] at hmem; simp at hmem
    | cons x l => rfl

theorem bne_false_inRanges_single (lo hi c : Nat) :
    (inRanges [(lo, hi)] c != false) = true ↔ lo ≤ c ∧ c ≤ hi := by
  rw [← inRanges_single]
  cases inRanges [(lo, hi)] c <;> simp

/-! ## The phone rule -/

/-- The phone pattern matches exactly the strings of the specification's
wording. -/
theorem phoneRegex_test_iff (w : JSStr) : phoneRegex.test w = true ↔ specPhone w := by
  rw [phoneRegex, test_bos]
  simp only [mem_run_seq, mem_run_opt, mem_run_set, mem_run_rep_set (show 1 ≤ 14 by decide),
    mem_run_eos, digitRanges, bne_false_inRanges_single]
  constructor
  · rintro ⟨u, t, ht, t2, ⟨d, htd, hd⟩, t3, ⟨p, hp, hlo, hhi, hdig⟩, ht3, _⟩
    subst ht3
    rw [List.append_nil] at hp
    subst hp
    rcases ht with ⟨c, hw, hc⟩ | ht
    · have hc43 : c = 43 := by omega
      subst hc43
      exact ⟨[43], d, t2, by rw [hw, htd]; rfl, Or.inr rfl, hd, ⟨hlo, hhi⟩, hdig⟩
    · exact ⟨[], d, t2, by rw [← ht, htd]; rfl, Or.inl rfl, hd, ⟨hlo, hhi⟩, hdig⟩
  · rintro ⟨sign, d, ds, hw, hsign, hd, ⟨hlo, hhi⟩, hdig⟩
    refine ⟨[], d :: ds, ?_, ds, ⟨d, rfl, hd⟩, [], ⟨ds, by simp, hlo, hhi, hdig⟩, rfl, rfl⟩
    rcases hsign with h | h
    · right
      rw [hw, h]
      rfl
    · left
      exact ⟨43, by rw [hw, h]; rfl, by decide⟩

theorem stripWs_insert (a ws b : JSStr) (hws : ∀ c ∈ ws, inRanges wsRanges c = true) :
    stripWs (a ++ ws ++ b) = stripWs (a ++ b) := by
  have hnil : ws.filter (fun c => !inRanges wsRanges c) = [] := by
    rw [List.filter_eq_nil_iff]
    intro c hc
    simp [hws c hc]
  simp [stripWs, List.filter_append, hnil]

/-- C13: `validateField` on `phoneNumber` gives no error exactly when the
value with its whitespace characters removed is an optional `+`, a digit 1-9
and 1 to 14 further digits, and the phone message otherwise; whitespace
inserted anywhere does not change the result; `+2348000000000` is accepted, also
with every whitespace character inside it, and rejected with any of a few
near-blank characters that are not whitespace inside it. -/
theorem validateField_phoneNumber_iff (formData : Obj JSStr) (v : JSStr) :
    (validateField formData "phoneNumber" v = js "" ↔ specPhone (specStrip v)) ∧
      (¬ specPhone (specStrip v) → validateField formData "phoneNumber" v =
        js "Please enter a valid phone number (e.g. +2348000000000)") ∧
      (∀ a ws b : JSStr, v = a ++ b → (∀ c ∈ ws, specWhitespace c = true) →
        validateField formData "phoneNumber" (a ++ ws ++ b) =
          validateField formData "phoneNumber" v) ∧
      validateField formData "phoneNumber" (js "+2348000000000") = js "" ∧
      validateField formData "phoneNumber"
        (js "+234" ++ [9, 10, 11, 12, 13, 32, 160, 5760, 8192, 8193, 8194, 8195, 8196, 8197,
          8198, 8199, 8200, 8201, 8202, 8232, 8233, 8239, 8287, 12288, 65279] ++
          js "8000000000") = js "" ∧
      ∀ c ∈ [8, 14, 31, 33, 133, 6158, 8203, 8204, 8288, 65278],
        validateField formData "phoneNumber" (js "+234" ++ [c] ++ js "8000000000") =
          js "Please enter a valid phone number (e.g. +2348000000000)" := by
  refine ⟨?_, ?_, ?_, ?_, ?_, ?_⟩
  · rw [validateField_phoneNumber, ← stripWs_eq_specStrip, ← phoneRegex_test_iff]
    cases phoneRegex.test (stripWs v)
    · simp only [Bool.not_false, if_true]
      constructor
      · intro h
        exact absurd h (by decide)
      · intro h
        exact absurd h (by decide)
    · simp
  · intro h
    rw [← stripWs_eq_specStrip, ← phoneRegex_test_iff] at h
    rw [validateField_phoneNumber]
    cases hpt : phoneRegex.test (stripWs v)
    · rfl
    · exact absurd hpt h
  · intro a ws b hv hws
    have hws' : ∀ c ∈ ws, inRanges wsRanges c = true := by
      intro c hc
      rw [inRanges_wsRanges]
      exact hws c hc
    rw [validateField_phoneNumber, validateField_phoneNumber, stripWs_insert a ws b hws', hv]
  · rw [validateField_phoneNumber]
    decide
  · rw [validateField_phoneNumber]
    decide
  · intro c hc
    rw [validateField_phoneNumber]
    revert c
    decide

/-! ## The email rule -/

theorem notWsAt_ok (c : Nat) :
    (inRanges (wsRanges ++ [(64, 64)]) c != true) = true ↔
      inRanges wsRanges c = false ∧ c ≠ 64 := by
  have h64 : inRanges [(64, 64)] c = true ↔ c = 64 := by
    rw [inRanges_single]
    omega
  have happ : inRanges (wsRanges ++ [(64, 64)]) c =
      (inRanges wsRanges c || inRanges [(64, 64)] c) := by
    simp [inRanges, List.any_append]
  rw [happ]
  cases hw : inRanges wsRanges c <;> cases ha : inRanges [(64, 64)] c <;> simp
  · intro h
    rw [h64.mpr h] at ha
    exact absurd ha (by decide)
  · exact h64.mp ha

/-- The email pattern matches exactly a non-empty run, `@`, a non-empty run,
`.`, a non-empty run, each run free of whitespace and of `@`. -/
theorem emailRegex_test_iff (v : JSStr) :
    emailRegex.test v = true ↔
      ∃ l d1 d2 : JSStr, v = l ++ 64 :: (d1 ++ 46 :: d2) ∧ l ≠ [] ∧ d1 ≠ [] ∧ d2 ≠ [] ∧
        (∀ c ∈ l, inRanges wsRanges c = false ∧ c ≠ 64) ∧
        (∀ c ∈ d1, inRanges wsRanges c = false ∧ c ≠ 64) ∧
        (∀ c ∈ d2, inRanges wsRanges c = false ∧ c ≠ 64) := by
  rw [emailRegex, test_bos]
  simp only [notWsAt, mem_run_seq, mem_run_plus_set, mem_run_set, mem_run_eos,
    bne_false_inRanges_single, notWsAt_ok]
  constructor
  · rintro ⟨u, t1, ⟨p1, hv, hp1, hok1⟩, t2, ⟨a, ht1, ha⟩, t3, ⟨p2, ht2, hp2, hok2⟩, t4,
      ⟨b, ht3, hb⟩, t5, ⟨p3, ht4, hp3, hok3⟩, ht5, _⟩
    have ha64 : a = 64 := by omega
    have hb46 : b = 46 := by omega
    subst ha64 hb46 ht5
    refine ⟨p1, p2, p3, ?_, hp1, hp2, hp3, hok1, hok2, hok3⟩
    rw [hv, ht1, ht2, ht3, ht4, List.append_nil]
  · rintro ⟨l, d1, d2, hv, hl, hd1, hd2, hok1, hok2, hok3⟩
    exact ⟨[], 64 :: (d1 ++ 46 :: d2), ⟨l, hv, hl, hok1⟩, d1 ++ 46 :: d2, ⟨64, rfl, by decide⟩,
      46 :: d2, ⟨d1, rfl, hd1, hok2⟩, d2, ⟨46, rfl, by decide⟩, [], ⟨d2, by simp, hd2, hok3⟩,
      rfl, rfl⟩

theorem emailRegex_test_iff_spec (v : JSStr) : emailRegex.test v = true ↔ specEmail v := by
  rw [emailRegex_test_iff]
  unfold specEmail
  simp only [← inRanges_wsRanges]
  constructor
  · rintro ⟨l, d1, d2, hv, hl, hd1, hd2, hok1, hok2, hok3⟩
    refine ⟨?_, ?_, l, d1 ++ 46 :: d2, hv, hl, d1, d2, rfl, hd1, hd2⟩
    · intro c hc
      rw [hv] at hc
      simp only [List.mem_append, List.mem_cons] at hc
      rcases hc with h | h | h | h | h
      · exact (hok1 c h).1
      · rw [h]; decide
      · exact (hok2 c h).1
      · rw [h]; decide
      · exact (hok3 c h).1
    · have h1 : l.count 64 = 0 := List.count_eq_zero.mpr (fun h => (hok1 64 h).2 rfl)
      have h2 : d1.count 64 = 0 := List.count_eq_zero.mpr (fun h => (hok2 64 h).2 rfl)
      have h3 : d2.count 64 = 0 := List.count_eq_zero.mpr (fun h => (hok3 64 h).2 rfl)
      rw [hv]
      simp [List.count_append, List.count_cons, h1, h2, h3]
  · rintro ⟨hws, hcount, l, d, hv, hl, d1, d2, hd, hd1, hd2⟩
    subst hd
    have hc : l.count 64 + (d1.count 64 + d2.count 64) = 0 := by
      rw [hv] at hcount
      simp [List.count_append, List.count_cons] at hcount
      omega
    have h1 : l.count 64 = 0 := by omega
    have h2 : d1.count 64 = 0 := by omega
    have h3 : d2.count 64 = 0 := by omega
    refine ⟨l, d1, d2, hv, hl, hd1, hd2, ?_, ?_, ?_⟩
    · intro c hc
      refine ⟨hws c (by rw [hv]; simp [hc]), ?_⟩
      intro h64
      rw [h64] at hc
      exact (List.count_eq_zero.mp h1) hc
    · intro c hc
      refine ⟨hws c (by rw [hv]; simp [hc]), ?_⟩
      intro h64
      rw [h64] at hc
      exact (List.count_eq_zero.mp h2) hc
    · intro c hc
      refine ⟨hws c (by rw [hv]; simp [hc]), ?_⟩
      intro h64
      rw [h64] at hc
      exact (List.count_eq_zero.mp h3) hc

/-- C16: `validateField` on `email` gives no error exactly when the value has
no whitespace character, exactly one `@`, a non-empty local part and a domain
holding a `.` that is neither its first nor its last character; otherwise it
gives the email message. Every whitespace character put into the local part of
`ada@example.com` gives the message, and a few near-blank characters that are
not whitespace give none. -/
theorem validateField_email_iff (formData : Obj JSStr) (v : JSStr) :
    (validateField formData "email" v = js "" ↔ specEmail v) ∧
      (¬ specEmail v →
        validateField formData "email" v = js "Please enter a valid email address") ∧
      (∀ c ∈ [9, 10, 11, 12, 13, 32, 160, 5760, 8192, 8193, 8194, 8195, 8196, 8197, 8198,
          8199, 8200, 8201, 8202, 8232, 8233, 8239, 8287, 12288, 65279],
        validateField formData "email" (js "ad" ++ [c] ++ js "a@example.com") =
          js "Please enter a valid email address") ∧
      ∀ c ∈ [8, 14, 31, 33, 133, 6158, 8203, 8204, 8288, 65278],
        validateField formData "email" (js "ad" ++ [c] ++ js "a@example.com") = js "" := by
  refine ⟨?_, ?_, ?_, ?_⟩
  · rw [validateField_email, ← emailRegex_test_iff_spec]
    cases emailRegex.test v
    · exact ⟨fun h => absurd h (by decide), fun h => absurd h (by decide)⟩
    · exact ⟨fun _ => rfl, fun _ => rfl⟩
  · intro h
    rw [← emailRegex_test_iff_spec] at h
    rw [validateField_email]
    cases hre : emailRegex.test v
    · rfl
    · exact absurd hre h
  · intro c hc
    rw [validateField_email]
    revert c
    decide
  · intro c hc
    rw [validateField_email]
    revert c
    decide

/-! ## Errors against rules along the events of the registration form -/

/-- C15, as stated, fails: after a password is typed, the same confirmation is
typed, the confirmation field is left and the password is changed,
`confirmPassword` is touched and its error is the empty string, yet its value
differs from the current password, which `validateField` itself would answer
with "Passwords do not match". -/
theorem stale_confirmPassword :
    RegSys.initial.faithful staleConfirmEvents = true ∧
    (RegSys.initial.run staleConfirmEvents).state.touched.get "confirmPassword" = some true ∧
    (RegSys.initial.run staleConfirmEvents).state.errors.get "confirmPassword" =
      some (js "") ∧
    (RegSys.initial.run staleConfirmEvents).state.formData.get "confirmPassword" =
      some (js "Passw0rdX") ∧
    (RegSys.initial.run staleConfirmEvents).state.formData.get "password" =
      some (js "Passw0rdY") ∧
    js "Passw0rdX" ≠ js "Passw0rdY" ∧
    validateField (RegSys.initial.run staleConfirmEvents).state.formData "confirmPassword"
      (js "Passw0rdX") = js "Passwords do not match" := by
  decide

/-- A value the validator accepts satisfies the rule the specification gives
for its field. -/
theorem validateField_sound (formData : Obj JSStr) (f : String) (v : JSStr)
    (h : validateField formData f v = []) : specRule formData f v := by
  unfold specRule
  by_cases h1 : f = "firstName"
  · subst h1
    rw [if_pos (Or.inl rfl), ← trim_eq_specTrim]
    rw [validateField_firstName] at h
    by_cases hlen : (trim v).length < 2
    · rw [if_pos hlen] at h
      exact absurd h (by decide)
    · omega
  by_cases h2 : f = "lastName"
  · subst h2
    rw [if_pos (Or.inr rfl), ← trim_eq_specTrim]
    rw [validateField_lastName] at h
    by_cases hlen : (trim v).length < 2
    · rw [if_pos hlen] at h
      exact absurd h (by decide)
    · omega
  rw [if_neg (by simp [h1, h2])]
  by_cases h3 : f = "email"
  · subst h3
    rw [if_pos rfl]
    rw [validateField_email] at h
    cases hre : emailRegex.test v with
    | false =>
      rw [hre] at h
      exact absurd h (by decide)
    | true => exact (emailRegex_test_iff_spec v).mp hre
  rw [if_neg h3]
  by_cases h4 : f = "phoneNumber"
  · subst h4
    rw [if_pos rfl]
    rw [validateField_phoneNumber] at h
    cases hre : phoneRegex.test (stripWs v) with
    | false =>
      rw [hre] at h
      exact absurd h (by decide)
    | true =>
      rw [← stripWs_eq_specStrip]
      exact (phoneRegex_test_iff (stripWs v)).mp hre
  rw [if_neg h4]
  by_cases h5 : f = "password"
  · subst h5
    rw [if_pos rfl]
    rw [validateField_password] at h
    by_cases hlen : v.length < 8
    · rw [if_pos hlen] at h
      exact absurd h (by decide)
    · rw [if_neg hlen] at h
      cases hre : passwordRegex.test v with
      | false =>
        rw [hre] at h
        exact absurd h (by decide)
      | true =>
        obtain ⟨⟨c1, hc1, hl⟩, ⟨c2, hc2, hu⟩, ⟨c3, hc3, hd⟩⟩ := passwordRegex_sound hre
        exact ⟨by omega, ⟨c1, hc1, (inRanges_single 97 122 c1).mp hl⟩,
          ⟨c2, hc2, (inRanges_single 65 90 c2).mp hu⟩,
          ⟨c3, hc3, (inRanges_single 48 57 c3).mp hd⟩⟩
  rw [if_neg h5]
  by_cases h6 : f = "confirmPassword"
  · subst h6
    rw [if_pos rfl]
    rw [validateField_confirmPassword] at h
    by_cases heq : some v ≠ formData.get "password"
    · rw [if_pos heq] at h
      exact absurd h (by decide)
    · exact (not_not.mp heq).symm
  rw [if_neg h6]
  trivial

theorem get_foldl_errors (formData : Obj JSStr) (f : String) (keys : List String) :
    ∀ acc : Obj JSStr,
      (keys.foldl (fun newErrors key =>
        if errorOf formData key ≠ [] then Obj.set newErrors key (errorOf formData key)
        else newErrors) acc).get f =
      if f ∈ keys ∧ errorOf formData f ≠ [] then some (errorOf formData f) else acc.get f := by
  induction keys with
  | nil => intro acc; simp
  | cons k keys ih =>
    intro acc
    rw [List.foldl_cons, ih]
    by_cases hf : f ∈ keys ∧ errorOf formData f ≠ []
    · rw [if_pos hf, if_pos ⟨List.mem_cons_of_mem k hf.1, hf.2⟩]
    · rw [if_neg hf]
      by_cases hk : k = f
      · subst hk
        by_cases he : errorOf formData k ≠ []
        · rw [if_pos he, Obj.get_set, if_pos rfl, if_pos ⟨List.mem_cons_self k keys, he⟩]
        · rw [if_neg he, if_neg (fun h => he h.2)]
      · have hnot : ¬ (f ∈ k :: keys ∧ errorOf formData f ≠ []) := by
          rintro ⟨hmem, hne⟩
          rcases List.mem_cons.mp hmem with h | h
          · exact hk h.symm
          · exact hf ⟨h, hne⟩
        rw [if_neg hnot]
        by_cases he : errorOf formData k ≠ []
        · rw [if_pos he, Obj.get_set, if_neg hk]
        · rw [if_neg he]

/-- After the validation loop of the submit, a key of the form whose entry is
absent or empty holds a value the validator accepts. -/
theorem collectErrors_agree (formData : Obj JSStr) (f : String) (v : JSStr)
    (hget : formData.get f = some v)
    (herr : (collectErrors formData).get f = none ∨ (collectErrors formData).get f = some []) :
    validateField formData f v = [] := by
  have hkey : f ∈ formData.keys := Obj.mem_keys_of_get _ _ _ hget
  rw [collectErrors_eq, get_foldl_errors] at herr
  have hnone : errorOf formData f = [] := by
    by_contra hne
    rw [if_pos ⟨hkey, hne⟩] at herr
    rcases herr with h | h
    · exact absurd h (by simp)
    · exact hne (Option.some.inj h)
  unfold errorOf at hnone
  by_cases hr : f = "referralCode"
  · subst hr
    exact validateField_default _ _ _ (by decide) (by decide) (by decide) (by decide)
      (by decide) (by decide)
  · rw [if_pos hr, hget] at hnone
    exact hnone

theorem RegSys.errorsAgree_step (sys : RegSys) (e : RegEvent) (h : sys.ErrorsAgree)
    (hreal : sys.faithful [e] = true) : (sys.step e).ErrorsAgree := by
  intro f v hf ht hget herr
  cases e with
  | change name value =>
    simp only [RegSys.step, handleInputChange_touched] at ht
    simp only [RegSys.step, handleInputChange_formData] at hget ⊢
    simp only [RegSys.step] at herr
    have hcongr : ∀ w, validateField (Obj.set sys.state.formData name value) f w =
        validateField sys.state.formData f w :=
      fun w => validateField_congr _ _ f w (fun hc => absurd hc hf)
    rw [hcongr]
    by_cases hn : name = f
    · subst hn
      rw [Obj.get_set, if_pos rfl] at hget
      cases hget
      rw [handleInputChange_errors_touched _ _ _ ht, Obj.get_set, if_pos rfl] at herr
      rcases herr with h0 | h0
      · exact absurd h0 (by simp)
      · exact Option.some.inj h0
    · rw [Obj.get_set, if_neg hn] at hget
      have herr' : sys.state.errors.get f = none ∨ sys.state.errors.get f = some [] := by
        by_cases htn : sys.state.touched.get name = some true
        · rw [handleInputChange_errors_touched _ _ _ htn, Obj.get_set, if_neg hn] at herr
          exact herr
        · rw [handleInputChange_errors_untouched _ _ _ htn] at herr
          exact herr
      exact h f v hf ht hget herr'
  | blur name value =>
    simp only [RegSys.step, handleBlur, Obj.get_set] at ht hget herr ⊢
    by_cases hn : name = f
    · subst hn
      have hval : sys.state.formData.get name = some value := by
        simpa [RegSys.faithful, RegSys.canOccur] using hreal
      rw [hval] at hget
      cases hget
      rw [if_pos rfl] at herr
      rcases herr with h0 | h0
      · exact absurd h0 (by simp)
      · exact Option.some.inj h0
    · rw [if_neg hn] at ht herr
      exact h f v hf ht hget herr
  | click =>
    by_cases hs : sys.state.isSubmitting = true
    · have hsame : sys.step RegEvent.click = sys := by simp [RegSys.step, hs]
      rw [hsame] at ht hget herr ⊢
      exact h f v hf ht hget herr
    · have hst := RegSys.step_click sys (by simpa using hs)
      rw [hst, handleSubmitBegin_formData] at hget ⊢
      rw [hst, handleSubmitBegin_errors] at herr
      exact collectErrors_agree _ f v hget herr
  | settle =>
    cases hfl : sys.inFlight with
    | nil =>
      have hsame : sys.step RegEvent.settle = sys := by simp [RegSys.step, hfl]
      rw [hsame] at ht hget herr ⊢
      exact h f v hf ht hget herr
    | cons captured rest =>
      simp only [RegSys.step, hfl, handleSubmitEnd] at ht hget herr ⊢
      exact h f v hf ht hget herr

theorem RegSys.errorsAgree_run (events : List RegEvent) :
    ∀ sys : RegSys, sys.ErrorsAgree → sys.faithful events = true →
      (sys.run events).ErrorsAgree := by
  induction events with
  | nil => intro sys h _; exact h
  | cons e events ih =>
    intro sys h hreal
    have hsplit : sys.faithful [e] = true ∧ (sys.step e).faithful events = true := by
      simp only [RegSys.faithful, Bool.and_eq_true] at hreal ⊢
      exact ⟨⟨hreal.1, trivial⟩, hreal.2⟩
    exact ih (sys.step e) (RegSys.errorsAgree_step sys e h hsplit.1) hsplit.2

/-- C15, amended: along every sequence of events the rendered form can produce
from its initial state, a touched field other than `confirmPassword` whose
error is absent or empty holds a value that satisfies its rule. -/
theorem errors_agree_except_confirmPassword (events : List RegEvent)
    (hreal : RegSys.initial.faithful events = true) (f : String) (v : JSStr)
    (hf : f ≠ "confirmPassword")
    (ht : (RegSys.initial.run events).state.touched.get f = some true)
    (hget : (RegSys.initial.run events).state.formData.get f = some v)
    (herr : (RegSys.initial.run events).state.errors.get f = none ∨
      (RegSys.initial.run events).state.errors.get f = some (js "")) :
    specRule (RegSys.initial.run events).state.formData f v := by
  apply validateField_sound
  have hinit : RegSys.initial.ErrorsAgree := by
    intro f v _ ht _ _
    have hnone : RegSys.initial.state.touched.get f = none := rfl
    rw [hnone] at ht
    exact absurd ht (by simp)
  exact RegSys.errorsAgree_run events RegSys.initial hinit hreal f v hf ht hget herr

theorem errors_agree_except_confirmPassword_witness :
    specRule (RegSys.initial.run emailThenSubmitEvents).state.formData "email"
      (js "ada@example.com") :=
  errors_agree_except_confirmPassword emailThenSubmitEvents (by decide) "email"
    (js "ada@example.com") (by decide) (by decide) (by decide) (Or.inl (by decide))

end Cloudnotte
